import Mathlib

/-!
Verification of the incremental fetch/resume engine of the tesla-solar-download
repository (`tesla_solar_download.py`), against its natural-language specification.

The Python source is shallowly embedded:

* Aware datetimes (as produced by `pytz`) are pairs of a naive local wall-clock
  reading, measured in whole seconds, and an attached UTC offset.  Python's
  aware-datetime arithmetic (`datetime ± timedelta`) acts on the wall-clock
  fields and keeps the attached offset; comparisons compare the denoted UTC
  instants.  A `pytz` timezone is modelled as the function taking a naive local
  reading to the UTC offset `localize` attaches to it.
* The download directory is a finite store keyed by (kind, period, partial-flag);
  the `YYYY-MM-DD` / `YYYY-MM` path components of a csv filename are injective
  renderings of the period's local calendar day / month, so a key carries the
  naive local midnight that starts the day (for power) or the month (for energy).
* The remote API is an oracle mapping a request and an attempt index to either a
  transient error code or a list of raw samples; `dateutil.parser.parse` is an
  oracle mapping a raw timestamp string to a naive reading.
* The two download loops are embedded as fuel-indexed recursions returning a
  final status, the final store, and a per-period trace.
-/

namespace TeslaSolar

/-- An aware datetime in the style of a pytz-localized Python `datetime`:
the naive local wall-clock reading in seconds together with the attached
UTC offset in seconds.  The denoted UTC instant is `naive - off`. -/
structure DT where
  naive : Int
  off : Int
deriving DecidableEq, Repr

/-- The UTC instant denoted by an aware datetime; Python compares aware
datetimes by their instants. -/
def DT.instant (d : DT) : Int := d.naive - d.off

/-- A pytz timezone, as the function `tz.localize` computes: naive local
reading to attached UTC offset. -/
def Tz : Type := Int → Int

/-- `pytz.timezone(tz).localize(naive)`. -/
def localize (tz : Tz) (n : Int) : DT := ⟨n, tz n⟩

/-- Python aware-datetime arithmetic: `d - timedelta(seconds = s)` shifts the
wall-clock fields and keeps the attached offset. -/
def DT.subSec (d : DT) (s : Int) : DT := ⟨d.naive - s, d.off⟩

/-- `d.replace(hour=0, minute=0, second=0)` on the naive reading: the most
recent local midnight. -/
def floorDay (n : Int) : Int := n - n % 86400

/-- Civil-calendar triple (year, month, day) of a count of days since
1970-01-01, by the standard Gregorian conversion. -/
def civilFromDays (z : Int) : Int × Int × Int :=
  let z' := z + 719468
  let era := Int.ediv z' 146097
  let doe := Int.emod z' 146097
  let yoe := Int.ediv (doe - Int.ediv doe 1460 + Int.ediv doe 36524 - Int.ediv doe 146096) 365
  let doy := doe - (365 * yoe + Int.ediv yoe 4 - Int.ediv yoe 100)
  let mp := Int.ediv (5 * doy + 2) 153
  let d := doy - Int.ediv (153 * mp + 2) 5 + 1
  let m := if mp < 10 then mp + 3 else mp - 9
  (yoe + era * 400 + (if m ≤ 2 then 1 else 0), m, d)

/-- Days since the epoch of a naive reading. -/
def epochDays (n : Int) : Int := Int.ediv n 86400

/-- Python `.day`: the day of month (1-based) of a naive reading. -/
def dayOfMonth (n : Int) : Int := (civilFromDays (epochDays n)).2.2

/-- The naive midnight starting the local calendar month of a naive reading;
this is what `strftime('%Y-%m')` renders injectively. -/
def monthFloor (n : Int) : Int := floorDay n - 86400 * (dayOfMonth n - 1)

/-- Day-of-era (0-based, from March 1 of year 0 of the 400-year era) at which
year-of-era `y` starts, as in the standard Gregorian conversion. -/
def yearStart (y : Int) : Int := 365 * y + Int.ediv y 4 - Int.ediv y 100

/-- The year-of-era of a day-of-era, as computed inside `civilFromDays`. -/
def yoeOf (doe : Int) : Int :=
  Int.ediv (doe - Int.ediv doe 1460 + Int.ediv doe 36524 - Int.ediv doe 146096) 365

/-- The day-of-year (0-based from March 1) of a day-of-era. -/
def doyOf (doe : Int) : Int := doe - yearStart (yoeOf doe)

/-- The day-of-month computed from a day-of-year, as inside `civilFromDays`. -/
def dayFromDoy (t : Int) : Int := t - Int.ediv (153 * (Int.ediv (5 * t + 2) 153) + 2) 5 + 1

/-- The day-of-month component of `civilFromDays` as a function of the
day-of-era alone. -/
def civilDayOfDoe (doe : Int) : Int := dayFromDoy (doyOf doe)

/-- Zero-padded two-digit rendering of a field value. -/
def pad2 (n : Int) : String := if n < 10 then "0" ++ toString n else toString n

/-- Zero-padded four-digit rendering of a year, as `strftime('%Y')`. -/
def pad4 (n : Int) : String :=
  if n < 10 then "000" ++ toString n
  else if n < 100 then "00" ++ toString n
  else if n < 1000 then "0" ++ toString n
  else toString n

/-- `strftime('%Y-%m-%d %H:%M:%S')` of a naive reading: the canonical
local-naive timestamp form the engine writes. -/
def fmtNaive (n : Int) : String :=
  let c := civilFromDays (epochDays n)
  let s := Int.emod n 86400
  pad4 c.1 ++ "-" ++ pad2 c.2.1 ++ "-" ++ pad2 c.2.2 ++ " " ++
    pad2 (Int.ediv s 3600) ++ ":" ++ pad2 (Int.emod (Int.ediv s 60) 60) ++ ":" ++
    pad2 (Int.emod s 60)

example : civilFromDays 0 = (1970, 1, 1) := by decide
example : fmtNaive 86399 = "1970-01-01 23:59:59" := by decide
example : dayOfMonth (-1) = 31 := by decide
example : monthFloor (32 * 86400 + 7) = 31 * 86400 := by decide

/-- A raw power sample as returned in `response['time_series']`: a record with
a timestamp string, the four power fields the code reads, and any further
fields (kept opaque as name/value pairs). -/
structure PowerSample where
  timestamp : String
  solar_power : ℚ
  battery_power : ℚ
  grid_power : ℚ
  generator_power : ℚ
  extra : List (String × ℚ)
deriving DecidableEq, Repr

/-- A written power csv row: the sample after `_write_power_csv`'s in-place
transformation, with the derived `load_power` column appended. -/
structure PowerRow where
  timestamp : String
  solar_power : ℚ
  battery_power : ℚ
  grid_power : ℚ
  generator_power : ℚ
  extra : List (String × ℚ)
  load_power : ℚ
deriving DecidableEq, Repr

/-- A raw energy sample: a timestamp string plus its native field set,
which `_write_energy_csv` does not touch. -/
structure EnergySample where
  timestamp : String
  fields : List (String × ℚ)
deriving DecidableEq, Repr

/-- The row transformation in `_write_power_csv`'s loop: normalize the
timestamp via `parse(...).strftime('%Y-%m-%d %H:%M:%S')` and append
`load_power = solar_power + battery_power + grid_power + generator_power`.
`parseTs` stands for `dateutil.parser.parse`. -/
def transformPower (parseTs : String → Int) (s : PowerSample) : PowerRow :=
  { timestamp := fmtNaive (parseTs s.timestamp)
    solar_power := s.solar_power
    battery_power := s.battery_power
    grid_power := s.grid_power
    generator_power := s.generator_power
    extra := s.extra
    load_power := s.solar_power + s.battery_power + s.grid_power + s.generator_power }

/-- The row transformation in `_write_energy_csv`'s loop: only the timestamp
is normalized, the native fields are written unchanged. -/
def transformEnergy (parseTs : String → Int) (s : EnergySample) : EnergySample :=
  { s with timestamp := fmtNaive (parseTs s.timestamp) }

/-- A csv filename under `download/<site>/...`: the kind directory, the
`%Y-%m-%d` (power) or `%Y-%m` (energy) date component — carried as the naive
local midnight starting that day resp. month, of which the rendering is an
injective image — and whether the `.partial.csv` suffix is present. -/
inductive SKey
  | power (day : Int) (isPart : Bool)
  | energy (month : Int) (isPart : Bool)
deriving DecidableEq, Repr

/-- The contents of one written csv file. -/
inductive Artifact
  | power (rows : List PowerRow)
  | energy (rows : List EnergySample)
deriving DecidableEq, Repr

/-- The download directory: a finite map from filenames to file contents. -/
abbrev Store := List (SKey × Artifact)

/-- `os.path.exists` on a csv filename. -/
def stExists (st : Store) (k : SKey) : Bool := st.any (fun p => p.1 == k)

/-- `open(name, 'w')` + write: replace whatever was stored under the key. -/
def stSet (st : Store) (k : SKey) (a : Artifact) : Store :=
  (k, a) :: st.filter (fun p => !(p.1 == k))

/-- Read back a stored file's contents, if present. -/
def stGet (st : Store) (k : SKey) : Option Artifact :=
  (st.find? (fun p => p.1 == k)).map (·.2)

/-- `_delete_partial_power_files`: remove every file in the power directory
whose name contains `.partial.csv`. -/
def delPartPower (st : Store) : Store :=
  st.filter fun p =>
    match p.1 with
    | .power _ true => false
    | _ => true

/-- `_delete_partial_energy_files`: remove every file in the energy directory
whose name contains `.partial.csv`. -/
def delPartEnergy (st : Store) : Store :=
  st.filter fun p =>
    match p.1 with
    | .energy _ true => false
    | _ => true

/-- Errors the per-period download can raise: a transient transport/API error
(an opaque code), or `ValueError('No timeseries')` on an empty series. -/
inductive Err
  | fetchFailed (code : Nat)
  | emptySeries
deriving DecidableEq, Repr

/-- A `CALENDAR_HISTORY_DATA` request: the aware start/end datetimes whose
`isoformat()` (naive reading plus attached offset) is sent to the API. -/
structure Req where
  startDt : DT
  endDt : DT
deriving DecidableEq, Repr

/-- Observable events of a run, in order: an API call (with its attempt
index within the retry wrapper), a `time.sleep`, a file write. -/
inductive Ev
  | apiCall (r : Req) (att : Nat)
  | sleepEv (n : Nat)
  | wrote (k : SKey) (a : Artifact)
deriving DecidableEq, Repr

/-- The remote power telemetry oracle: request and attempt index to either a
transient error code or the raw `time_series`. -/
def ApiP : Type := Req → Nat → Except Nat (List PowerSample)

/-- The remote energy telemetry oracle. -/
def ApiE : Type := Req → Nat → Except Nat (List EnergySample)

/-- `_write_power_csv`: raise on an empty series before any file is created,
otherwise create/overwrite the csv with the transformed rows.  Returns the
new store and the written artifact. -/
def writePowerCsv (parseTs : String → Int) (samples : List PowerSample)
    (day : Int) (isPart : Bool) (st : Store) : Except Err (Store × Artifact) :=
  if samples = [] then .error .emptySeries
  else
    let a := Artifact.power (samples.map (transformPower parseTs))
    .ok (stSet st (.power day isPart) a, a)

/-- `_write_energy_csv`: raise on an empty series before any file is created,
otherwise create/overwrite the csv with the transformed rows. -/
def writeEnergyCsv (parseTs : String → Int) (samples : List EnergySample)
    (month : Int) (isPart : Bool) (st : Store) : Except Err (Store × Artifact) :=
  if samples = [] then .error .emptySeries
  else
    let a := Artifact.energy (samples.map (transformEnergy parseTs))
    .ok (stSet st (.energy month isPart) a, a)

/-- One attempt of the body of `_download_power_day`: the API call followed by
the csv write.  A failed attempt leaves the store untouched (the empty-series
check precedes file creation). -/
def attemptPower (parseTs : String → Int) (api : ApiP) (r : Req) (day : Int)
    (isPart : Bool) (st : Store) (n : Nat) : Except Err Store × List Ev :=
  match api r n with
  | .error c => (.error (.fetchFailed c), [.apiCall r n])
  | .ok samples =>
    match writePowerCsv parseTs samples day isPart st with
    | .error e => (.error e, [.apiCall r n])
    | .ok (st', a) => (.ok st', [.apiCall r n, .wrote (.power day isPart) a])

/-- One attempt of the body of `_download_energy_month`. -/
def attemptEnergy (parseTs : String → Int) (api : ApiE) (r : Req) (month : Int)
    (isPart : Bool) (st : Store) (n : Nat) : Except Err Store × List Ev :=
  match api r n with
  | .error c => (.error (.fetchFailed c), [.apiCall r n])
  | .ok samples =>
    match writeEnergyCsv parseTs samples month isPart st with
    | .error e => (.error e, [.apiCall r n])
    | .ok (st', a) => (.ok st', [.apiCall r n, .wrote (.energy month isPart) a])

/-- The `@retry(tries=2, delay=5)` decorator: run the wrapped body; on any
exception sleep 5 and run it once more; the second exception propagates. -/
def retry2 (att : Nat → Except Err Store × List Ev) : Except Err Store × List Ev :=
  match att 0 with
  | (.ok st', ev) => (.ok st', ev)
  | (.error _, ev0) =>
    match att 1 with
    | (res, ev1) => (res, ev0 ++ .sleepEv 5 :: ev1)

/-- `_download_power_day` with its retry decorator. -/
def downloadPowerDay (parseTs : String → Int) (api : ApiP) (r : Req) (day : Int)
    (isPart : Bool) (st : Store) : Except Err Store × List Ev :=
  retry2 (attemptPower parseTs api r day isPart st)

/-- `_download_energy_month` with its retry decorator. -/
def downloadEnergyMonth (parseTs : String → Int) (api : ApiE) (r : Req) (month : Int)
    (isPart : Bool) (st : Store) : Except Err Store × List Ev :=
  retry2 (attemptEnergy parseTs api r month isPart st)

/-- How a run ended: the loop exited normally, the fuel bound was hit while
the loop condition still held, or a per-period exception propagated. -/
inductive RunStatus
  | ok
  | fuelOut
  | raised (e : Err)
deriving DecidableEq, Repr

/-- One iteration of a download loop: the cursor value (`date` for power,
`start_date` for energy), the period's request bounds, whether it is the
latest (partial) period, the store seen at the top of the iteration, whether
the period was fetched or skipped, and the events of the iteration. -/
structure Iter where
  date : DT
  startDt : DT
  endDt : DT
  latest : Bool
  stBefore : Store
  fetched : Bool
  events : List Ev
deriving DecidableEq, Repr

/-- Result of a download loop: the status, the final store, and the trace of
iterations actually entered. -/
structure Out where
  status : RunStatus
  store : Store
  trace : List Iter
deriving DecidableEq, Repr

/-- The request `_download_power_day` builds for a loop date: both bounds are
re-localized from the date's own naive reading (`tzinfo=None` then
`localize`). -/
def powerReq (tz : Tz) (d : DT) : Req :=
  ⟨localize tz (floorDay d.naive), localize tz (floorDay d.naive + 86399)⟩

/-- The `while date > installation_date` loop of `_download_power_data`,
fuel-indexed.  `instI` is the installation instant; `latest` is the
`partial_day` flag. -/
def powerLoop (tz : Tz) (parseTs : String → Int) (api : ApiP) (instI : Int) :
    Nat → DT → Bool → Store → Out
  | 0, d, _, st => if d.instant ≤ instI then ⟨.ok, st, []⟩ else ⟨.fuelOut, st, []⟩
  | fuel + 1, d, latest, st =>
    if d.instant ≤ instI then ⟨.ok, st, []⟩
    else
      let day := floorDay d.naive
      let r := powerReq tz d
      let next := localize tz (d.naive - 86400)
      if latest || !stExists st (.power day false) then
        match downloadPowerDay parseTs api r day latest st with
        | (.error e, evs) =>
          ⟨.raised e, st, [⟨d, r.startDt, r.endDt, latest, st, true, evs⟩]⟩
        | (.ok st', evs) =>
          let rest := powerLoop tz parseTs api instI fuel next false st'
          ⟨rest.status, rest.store,
            ⟨d, r.startDt, r.endDt, latest, st, true, evs ++ [.sleepEv 1]⟩ :: rest.trace⟩
      else
        let rest := powerLoop tz parseTs api instI fuel next false st
        ⟨rest.status, rest.store,
          ⟨d, r.startDt, r.endDt, latest, st, false, []⟩ :: rest.trace⟩

/-- `_download_power_data` for one site: start the cursor at today's local
midnight (with "now"'s attached offset) and loop with `partial_day = True`. -/
def powerRun (tz : Tz) (parseTs : String → Int) (api : ApiP) (instI : Int)
    (fuel : Nat) (now : DT) (st : Store) : Out :=
  powerLoop tz parseTs api instI fuel ⟨floorDay now.naive, now.off⟩ true st

/-- The cursor advance at the bottom of the energy loop: `end_date` becomes
one second before the current `start_date` (keeping its attached offset), and
the new `start_date` is the first of that month, re-localized. -/
def energyStep (tz : Tz) (sd : DT) : DT × DT :=
  let ed := sd.subSec 1
  let sn := floorDay ed.naive - 86400 * (dayOfMonth ed.naive - 1)
  (localize tz sn, ed)

/-- The `while end_date > installation_date` loop of `_download_energy_data`,
fuel-indexed.  `latest` is the `partial_month` flag. -/
def energyLoop (tz : Tz) (parseTs : String → Int) (api : ApiE) (instI : Int) :
    Nat → DT → DT → Bool → Store → Out
  | 0, _, ed, _, st => if ed.instant ≤ instI then ⟨.ok, st, []⟩ else ⟨.fuelOut, st, []⟩
  | fuel + 1, sd, ed, latest, st =>
    if ed.instant ≤ instI then ⟨.ok, st, []⟩
    else
      let mo := monthFloor sd.naive
      let r : Req := ⟨sd, ed⟩
      let nxt := energyStep tz sd
      if latest || !stExists st (.energy mo false) then
        match downloadEnergyMonth parseTs api r mo latest st with
        | (.error e, evs) =>
          ⟨.raised e, st, [⟨sd, sd, ed, latest, st, true, evs⟩]⟩
        | (.ok st', evs) =>
          let rest := energyLoop tz parseTs api instI fuel nxt.1 nxt.2 false st'
          ⟨rest.status, rest.store,
            ⟨sd, sd, ed, latest, st, true, evs ++ [.sleepEv 1]⟩ :: rest.trace⟩
      else
        let rest := energyLoop tz parseTs api instI fuel nxt.1 nxt.2 false st
        ⟨rest.status, rest.store,
          ⟨sd, sd, ed, latest, st, false, []⟩ :: rest.trace⟩

/-- `_download_energy_data` for one site: `start_date` is the first of the
current local month (derived by naive arithmetic from "now", so it keeps
"now"'s attached offset), `end_date` is today 23:59:59, and the loop starts
with `partial_month = True`. -/
def energyRun (tz : Tz) (parseTs : String → Int) (api : ApiE) (instI : Int)
    (fuel : Nat) (now : DT) (st : Store) : Out :=
  let sd0 : DT := ⟨floorDay now.naive, now.off⟩
  let sd0 := sd0.subSec (86400 * (dayOfMonth sd0.naive - 1))
  energyLoop tz parseTs api instI fuel sd0 ⟨floorDay now.naive + 86399, now.off⟩ true st

/-- The power cursor's date sequence: today's midnight, then one naive day
back per step, each re-localized. -/
def powerDateSeq (tz : Tz) (d0 : DT) : Nat → DT
  | 0 => d0
  | n + 1 => localize tz ((powerDateSeq tz d0 n).naive - 86400)

/-- The energy cursor's `start_date` sequence. -/
def eStartSeq (tz : Tz) (sd0 : DT) : Nat → DT
  | 0 => sd0
  | n + 1 => (energyStep tz (eStartSeq tz sd0 n)).1

/-- The energy cursor's `end_date` sequence: after the first period, the end
is one second before the previous (newer) period's start. -/
def eEndSeq (tz : Tz) (sd0 ed0 : DT) : Nat → DT
  | 0 => ed0
  | n + 1 => (eStartSeq tz sd0 n).subSec 1

/-- A telemetry oracle that never fails transiently and never returns an
empty series: the hypothesis under which a run is fully successful. -/
def goodApiP (api : ApiP) : Prop := ∀ r n, ∃ l, api r n = .ok l ∧ l ≠ []

/-- Energy analogue of `goodApiP`. -/
def goodApiE (api : ApiE) : Prop := ∀ r n, ∃ l, api r n = .ok l ∧ l ≠ []

/-- What `main` does per site and kind: delete all partial power files, then
run the power download loop. -/
def powerSession (tz : Tz) (parseTs : String → Int) (api : ApiP) (instI : Int)
    (fuel : Nat) (now : DT) (st : Store) : Out :=
  powerRun tz parseTs api instI fuel now (delPartPower st)

/-- What `main` does per site and kind: delete all partial energy files, then
run the energy download loop. -/
def energySession (tz : Tz) (parseTs : String → Int) (api : ApiE) (instI : Int)
    (fuel : Nat) (now : DT) (st : Store) : Out :=
  energyRun tz parseTs api instI fuel now (delPartEnergy st)

/-- Number of API calls recorded in a list of events. -/
def apiEvCount (evs : List Ev) : Nat :=
  (evs.filter fun e => match e with | .apiCall _ _ => true | _ => false).length

/-- Power half of the stopping characterization: once the run ends normally,
the trace is exactly the prefix of the cursor's date sequence on which the
loop condition `date > installation_date` holds, and the first date failing
it (at the trace's length) is where the loop stopped. -/
def c2Power (tz : Tz) (parseTs : String → Int) (api : ApiP) (instI : Int)
    (fuel : Nat) (now : DT) (st : Store) : Prop :=
  (powerRun tz parseTs api instI fuel now st).status = RunStatus.ok →
    (∀ (j : Nat) (it : Iter),
      (powerRun tz parseTs api instI fuel now st).trace.get? j = some it →
      it.date = powerDateSeq tz ⟨floorDay now.naive, now.off⟩ j ∧
      instI < it.date.instant) ∧
    (powerDateSeq tz ⟨floorDay now.naive, now.off⟩
      ((powerRun tz parseTs api instI fuel now st).trace.length)).instant ≤ instI

/-- Energy half of the stopping characterization: the loop condition is
`end_date > installation_date`, on the period-end sequence. -/
def c2Energy (tz : Tz) (parseTs : String → Int) (api : ApiE) (instI : Int)
    (fuel : Nat) (now : DT) (st : Store) : Prop :=
  (energyRun tz parseTs api instI fuel now st).status = RunStatus.ok →
    (∀ (j : Nat) (it : Iter),
      (energyRun tz parseTs api instI fuel now st).trace.get? j = some it →
      it.date = eStartSeq tz
        ((DT.mk (floorDay now.naive) now.off).subSec
          (86400 * (dayOfMonth (floorDay now.naive) - 1))) j ∧
      it.endDt = eEndSeq tz
        ((DT.mk (floorDay now.naive) now.off).subSec
          (86400 * (dayOfMonth (floorDay now.naive) - 1)))
        ⟨floorDay now.naive + 86399, now.off⟩ j ∧
      instI < it.endDt.instant) ∧
    (eEndSeq tz
      ((DT.mk (floorDay now.naive) now.off).subSec
        (86400 * (dayOfMonth (floorDay now.naive) - 1)))
      ⟨floorDay now.naive + 86399, now.off⟩
      ((energyRun tz parseTs api instI fuel now st).trace.length)).instant ≤ instI

/-- Tiling conclusion for a fully successful power run under a fixed-offset
timezone: writing `K` for the number of produced periods and
`S = floorDay nowNaive - 86400*(K-1) - c` for the oldest produced period's
start instant, the produced periods exactly tile `[S, N)` (each instant in
exactly one period), `S` lies in `(instI, instI + 86400]`, and only the first
(latest) trace entry is partial. -/
def c3Concl (c : Int) (parseTs : String → Int) (api : ApiP) (instI : Int)
    (fuel : Nat) (nowNaive : Int) (st : Store) : Prop :=
  1 ≤ (powerRun (fun _ => c) parseTs api instI fuel ⟨nowNaive, c⟩ st).trace.length ∧
  instI < floorDay nowNaive - c - 86400 *
    (((powerRun (fun _ => c) parseTs api instI fuel ⟨nowNaive, c⟩ st).trace.length : Int) - 1) ∧
  floorDay nowNaive - c - 86400 *
    (((powerRun (fun _ => c) parseTs api instI fuel ⟨nowNaive, c⟩ st).trace.length : Int) - 1)
    ≤ instI + 86400 ∧
  (∀ t : Int,
    floorDay nowNaive - c - 86400 *
      (((powerRun (fun _ => c) parseTs api instI fuel ⟨nowNaive, c⟩ st).trace.length : Int) - 1)
      ≤ t →
    t < nowNaive - c →
    ∃! j : Nat, ∃ it : Iter,
      (powerRun (fun _ => c) parseTs api instI fuel ⟨nowNaive, c⟩ st).trace.get? j = some it ∧
      it.startDt.instant ≤ t ∧ t ≤ it.endDt.instant) ∧
  (∀ (j : Nat) (it : Iter),
    (powerRun (fun _ => c) parseTs api instI fuel ⟨nowNaive, c⟩ st).trace.get? j = some it →
    (it.latest = true ↔ j = 0))

/-- Idempotence conclusion, power half: if a first delete-partials-then-run
session ends normally, a second session over its output also ends normally,
fetches only its first (latest) period, skips every other period, and leaves
every complete artifact byte-identical to the first session's. -/
def c4Power (tz : Tz) (parseTs : String → Int) (api : ApiP) (instI : Int)
    (fuel : Nat) (now : DT) (st0 : Store) : Prop :=
  (powerSession tz parseTs api instI fuel now st0).status = RunStatus.ok →
    ((powerSession tz parseTs api instI fuel now
        (powerSession tz parseTs api instI fuel now st0).store).status = RunStatus.ok ∧
      (∀ (j : Nat) (it : Iter),
        (powerSession tz parseTs api instI fuel now
          (powerSession tz parseTs api instI fuel now st0).store).trace.get? j = some it →
        1 ≤ j → it.fetched = false) ∧
      (∀ it : Iter,
        (powerSession tz parseTs api instI fuel now
          (powerSession tz parseTs api instI fuel now st0).store).trace.get? 0 = some it →
        it.fetched = true ∧ it.latest = true) ∧
      (∀ day : Int,
        stGet (powerSession tz parseTs api instI fuel now
          (powerSession tz parseTs api instI fuel now st0).store).store (.power day false)
          = stGet (powerSession tz parseTs api instI fuel now st0).store (.power day false)))

/-- Idempotence conclusion, energy half. -/
def c4Energy (tz : Tz) (parseTs : String → Int) (api : ApiE) (instI : Int)
    (fuel : Nat) (now : DT) (st0 : Store) : Prop :=
  (energySession tz parseTs api instI fuel now st0).status = RunStatus.ok →
    ((energySession tz parseTs api instI fuel now
        (energySession tz parseTs api instI fuel now st0).store).status = RunStatus.ok ∧
      (∀ (j : Nat) (it : Iter),
        (energySession tz parseTs api instI fuel now
          (energySession tz parseTs api instI fuel now st0).store).trace.get? j = some it →
        1 ≤ j → it.fetched = false) ∧
      (∀ it : Iter,
        (energySession tz parseTs api instI fuel now
          (energySession tz parseTs api instI fuel now st0).store).trace.get? 0 = some it →
        it.fetched = true ∧ it.latest = true) ∧
      (∀ month : Int,
        stGet (energySession tz parseTs api instI fuel now
          (energySession tz parseTs api instI fuel now st0).store).store (.energy month false)
          = stGet (energySession tz parseTs api instI fuel now st0).store
              (.energy month false)))

/-- Partial-supersession conclusion for a power period produced at cursor
index `j ≥ 1`: after the session, a complete artifact for that day exists
and no partial artifact for it remains. -/
def c5Concl (tz : Tz) (parseTs : String → Int) (api : ApiP) (instI : Int)
    (fuel : Nat) (now : DT) (st0 : Store) (j : Nat) : Prop :=
  stExists (powerSession tz parseTs api instI fuel now st0).store
    (.power (floorDay (powerDateSeq tz ⟨floorDay now.naive, now.off⟩ j).naive) false)
    = true ∧
  stGet (powerSession tz parseTs api instI fuel now st0).store
    (.power (floorDay (powerDateSeq tz ⟨floorDay now.naive, now.off⟩ j).naive) true)
    = none

/-- Partial-supersession conclusion for an energy period produced at cursor
index `j ≥ 1`: after the session, a complete artifact for that month exists
and no partial artifact for it remains. -/
def c5ConclE (tz : Tz) (parseTs : String → Int) (api : ApiE) (instI : Int)
    (fuel : Nat) (now : DT) (st0 : Store) (j : Nat) : Prop :=
  stExists (energySession tz parseTs api instI fuel now st0).store
    (.energy (monthFloor (eStartSeq tz
      (DT.subSec ⟨floorDay now.naive, now.off⟩
        (86400 * (dayOfMonth (floorDay now.naive) - 1))) j).naive) false) = true ∧
  stGet (energySession tz parseTs api instI fuel now st0).store
    (.energy (monthFloor (eStartSeq tz
      (DT.subSec ⟨floorDay now.naive, now.off⟩
        (86400 * (dayOfMonth (floorDay now.naive) - 1))) j).naive) true) = none

/-- A fixed-offset (UTC) timezone, for concrete scenarios. -/
def tzZero : Tz := fun _ => 0

/-- A timezone whose offset drops from +1h to 0 exactly at the naive reading
1970-02-01 00:00:00 — a transition falling on a month boundary. -/
def tzShift : Tz := fun n => if n < 2678400 then 3600 else 0

/-- A fixed timestamp parser for concrete scenarios. -/
def ptsZero : String → Int := fun _ => 0

/-- A concrete raw power sample. -/
def samplePw : PowerSample := ⟨"1970-01-01T00:00:00-08:00", 1, 2, 3, 4, []⟩

/-- A power oracle that always succeeds with one sample. -/
def apiPw : ApiP := fun _ _ => .ok [samplePw]

/-- A concrete raw energy sample. -/
def sampleEn : EnergySample := ⟨"1970-01-01T00:00:00-08:00", [("solar_energy_exported", 5)]⟩

/-- An energy oracle that always succeeds with one sample. -/
def apiEn : ApiE := fun _ _ => .ok [sampleEn]

/-- A power oracle that always fails transiently with the attempt index as
error code. -/
def apiPwFail : ApiP := fun _ n => .error n

/-- An energy oracle that always fails transiently with the attempt index as
error code. -/
def apiEnFail : ApiE := fun _ n => .error n

/-- A power oracle that always returns an empty series. -/
def apiPwEmpty : ApiP := fun _ _ => .ok []

/-- An energy oracle that always returns an empty series. -/
def apiEnEmpty : ApiE := fun _ _ => .ok []

/-- A power oracle returning an empty series on the first attempt and one
sample on the retry. -/
def apiPwEmptyThen : ApiP := fun _ n => if n = 0 then .ok [] else .ok [samplePw]

/-! ### Store lemmas -/

theorem find?_filter_of_imp {α : Type} (l : List α) (p q : α → Bool)
    (h : ∀ x, p x = true → q x = true) : (l.filter q).find? p = l.find? p := by
  induction l with
  | nil => rfl
  | cons hd tl ih =>
    by_cases hq : q hd = true
    · rw [List.filter_cons_of_pos hq]
      by_cases hp : p hd = true
      · rw [List.find?_cons_of_pos _ hp, List.find?_cons_of_pos _ hp]
      · rw [List.find?_cons_of_neg _ hp, List.find?_cons_of_neg _ hp, ih]
    · rw [List.filter_cons_of_neg hq]
      have hp : ¬ p hd = true := fun hp => hq (h hd hp)
      rw [List.find?_cons_of_neg _ hp, ih]

theorem find?_filter_none {α : Type} (l : List α) (p q : α → Bool)
    (h : ∀ x, p x = true → q x = false) : (l.filter q).find? p = none := by
  induction l with
  | nil => rfl
  | cons hd tl ih =>
    by_cases hq : q hd = true
    · rw [List.filter_cons_of_pos hq]
      have hp : ¬ p hd = true := fun hp => by rw [h hd hp] at hq; exact Bool.false_ne_true hq
      rw [List.find?_cons_of_neg _ hp, ih]
    · rw [List.filter_cons_of_neg hq, ih]

theorem stGet_cons (p : SKey × Artifact) (t : Store) (k : SKey) :
    stGet (p :: t) k = if p.1 = k then some p.2 else stGet t k := by
  by_cases h : p.1 = k
  · rw [stGet, List.find?_cons_of_pos _ (by simpa using h), if_pos h]
    rfl
  · rw [stGet, List.find?_cons_of_neg _ (by simpa using h), if_neg h]
    rfl

theorem stExists_eq_isSome_stGet (st : Store) (k : SKey) :
    stExists st k = (stGet st k).isSome := by
  induction st with
  | nil => rfl
  | cons p t ih =>
    by_cases hp : p.1 = k
    · rw [stGet_cons, if_pos hp]
      simp [stExists, List.any_cons, hp]
    · rw [stGet_cons, if_neg hp, ← ih]
      simp [stExists, List.any_cons, hp]

theorem stGet_stSet_self (st : Store) (k : SKey) (a : Artifact) :
    stGet (stSet st k a) k = some a := by
  rw [stSet, stGet_cons, if_pos rfl]

theorem stGet_stSet_ne (st : Store) {k k' : SKey} (a : Artifact) (h : k' ≠ k) :
    stGet (stSet st k a) k' = stGet st k' := by
  rw [stSet, stGet_cons, if_neg (by simpa using fun hh : k = k' => h hh.symm)]
  rw [stGet, stGet]
  rw [find?_filter_of_imp]
  intro x hx
  simp only [beq_iff_eq] at hx
  simp [hx, fun hh : k' = k => h hh]

theorem stExists_stSet (st : Store) (k k' : SKey) (a : Artifact) :
    stExists (stSet st k a) k' = ((k == k') || stExists st k') := by
  by_cases h : k = k'
  · subst h
    rw [stExists_eq_isSome_stGet, stGet_stSet_self]
    simp
  · rw [stExists_eq_isSome_stGet, stGet_stSet_ne st a (fun hh => h hh.symm),
      ← stExists_eq_isSome_stGet]
    simp [h]

theorem delPartPower_power_true (st : Store) (x : Int) :
    stExists (delPartPower st) (.power x true) = false := by
  rw [stExists_eq_isSome_stGet, stGet, delPartPower, find?_filter_none]
  · rfl
  · intro p hp
    simp only [beq_iff_eq] at hp
    rw [hp]

theorem delPartEnergy_energy_true (st : Store) (x : Int) :
    stExists (delPartEnergy st) (.energy x true) = false := by
  rw [stExists_eq_isSome_stGet, stGet, delPartEnergy, find?_filter_none]
  · rfl
  · intro p hp
    simp only [beq_iff_eq] at hp
    rw [hp]

theorem stGet_delPartPower_complete (st : Store) (x : Int) :
    stGet (delPartPower st) (.power x false) = stGet st (.power x false) := by
  rw [stGet, stGet, delPartPower, find?_filter_of_imp]
  intro p hp
  simp only [beq_iff_eq] at hp
  rw [hp]

theorem stExists_delPartPower_complete (st : Store) (x : Int) :
    stExists (delPartPower st) (.power x false) = stExists st (.power x false) := by
  rw [stExists_eq_isSome_stGet, stExists_eq_isSome_stGet, stGet_delPartPower_complete]

theorem stGet_delPartPower_energy (st : Store) (m : Int) (f : Bool) :
    stGet (delPartPower st) (.energy m f) = stGet st (.energy m f) := by
  rw [stGet, stGet, delPartPower, find?_filter_of_imp]
  intro p hp
  simp only [beq_iff_eq] at hp
  rw [hp]

theorem stGet_delPartEnergy_complete (st : Store) (x : Int) :
    stGet (delPartEnergy st) (.energy x false) = stGet st (.energy x false) := by
  rw [stGet, stGet, delPartEnergy, find?_filter_of_imp]
  intro p hp
  simp only [beq_iff_eq] at hp
  rw [hp]

theorem stExists_delPartEnergy_complete (st : Store) (x : Int) :
    stExists (delPartEnergy st) (.energy x false) = stExists st (.energy x false) := by
  rw [stExists_eq_isSome_stGet, stExists_eq_isSome_stGet, stGet_delPartEnergy_complete]

theorem stGet_delPartEnergy_power (st : Store) (m : Int) (f : Bool) :
    stGet (delPartEnergy st) (.power m f) = stGet st (.power m f) := by
  rw [stGet, stGet, delPartEnergy, find?_filter_of_imp]
  intro p hp
  simp only [beq_iff_eq] at hp
  rw [hp]

/-! ### Arithmetic lemmas about the time model -/

theorem floorDay_sub_day (n : Int) : floorDay (n - 86400) = floorDay n - 86400 := by
  unfold floorDay
  omega

theorem floorDay_le (n : Int) : floorDay n ≤ n := by
  unfold floorDay
  omega

theorem lt_floorDay_add (n : Int) : n < floorDay n + 86400 := by
  unfold floorDay
  omega

theorem powerDateSeq_naive (tz : Tz) (d0 : DT) (j : Nat) :
    (powerDateSeq tz d0 j).naive = d0.naive - 86400 * j := by
  induction j with
  | zero => simp [powerDateSeq]
  | succ j ih =>
    simp only [powerDateSeq, localize, ih]
    push_cast
    ring

theorem floorDay_idem (n : Int) : floorDay (floorDay n) = floorDay n := by
  unfold floorDay
  omega

theorem floorDay_sub_mul (n : Int) (j : Nat) :
    floorDay (n - 86400 * j) = floorDay n - 86400 * j := by
  induction j with
  | zero => simp
  | succ j ih =>
    have : n - 86400 * ((j : Int) + 1) = (n - 86400 * j) - 86400 := by ring
    push_cast
    rw [this, floorDay_sub_day, ih]
    ring

theorem powerDateSeq_off_const (c : Int) (d0 : DT) (h0 : d0.off = c) (j : Nat) :
    (powerDateSeq (fun _ => c) d0 j).off = c := by
  cases j with
  | zero => exact h0
  | succ j => rfl

theorem powerDateSeq_instant_const (c : Int) (nowNaive : Int) (j : Nat) :
    (powerDateSeq (fun _ => c) ⟨floorDay nowNaive, c⟩ j).instant
      = floorDay nowNaive - c - 86400 * j := by
  have h1 := powerDateSeq_naive (fun _ => c) ⟨floorDay nowNaive, c⟩ j
  have h2 := powerDateSeq_off_const c ⟨floorDay nowNaive, c⟩ rfl j
  unfold DT.instant
  rw [h1, h2]
  ring

theorem powerDateSeq_shift (tz : Tz) (d0 : DT) (j : Nat) :
    powerDateSeq tz d0 (j + 1) = powerDateSeq tz (powerDateSeq tz d0 1) j := by
  induction j with
  | zero => rfl
  | succ j ih => simp only [powerDateSeq] at ih ⊢; rw [ih]

theorem eStartSeq_shift (tz : Tz) (sd0 : DT) (j : Nat) :
    eStartSeq tz sd0 (j + 1) = eStartSeq tz (eStartSeq tz sd0 1) j := by
  induction j with
  | zero => rfl
  | succ j ih => simp only [eStartSeq] at ih ⊢; rw [ih]

theorem powerDateSeq_step (tz : Tz) (n off : Int) (j : Nat) :
    powerDateSeq tz (localize tz (n - 86400)) j = powerDateSeq tz ⟨n, off⟩ (j + 1) := by
  rw [powerDateSeq_shift]
  rfl

theorem eStartSeq_step (tz : Tz) (sd : DT) (j : Nat) :
    eStartSeq tz (energyStep tz sd).1 j = eStartSeq tz sd (j + 1) := by
  rw [eStartSeq_shift]
  rfl

/-! ### Calendar facts about `dayOfMonth` and `monthFloor` -/

theorem ediv_eq_div (a b : Int) : Int.ediv a b = a / b := rfl

theorem emod_eq_mod (a b : Int) : Int.emod a b = a % b := rfl

theorem civilDay_eq_doe (z : Int) :
    (civilFromDays z).2.2 = civilDayOfDoe (Int.emod (z + 719468) 146097) := rfl

theorem yoeOf_mono (a b : Int) (h0 : 0 ≤ a) (hab : a ≤ b) (hb : b ≤ 146095) :
    yoeOf a ≤ yoeOf b := by
  unfold yoeOf
  simp only [ediv_eq_div]
  apply Int.ediv_le_ediv (by decide)
  have h1 : a - a / 1460 ≤ b - b / 1460 := by omega
  have h2 : a / 36524 ≤ b / 36524 := by omega
  have h3 : a / 146096 = 0 := by omega
  have h4 : b / 146096 = 0 := by omega
  linarith

set_option maxRecDepth 2000 in
theorem yoe_yearStart : ∀ y : Nat, y < 400 → yoeOf (yearStart y) = y := by decide

set_option maxRecDepth 2000 in
theorem yoe_yearStart_pred : ∀ y : Nat, y < 400 → 1 ≤ y →
    yoeOf (yearStart y - 1) = (y : Int) - 1 := by decide

set_option maxRecDepth 2000 in
theorem yearStart_bounds : ∀ y : Nat, y < 400 → 0 ≤ yearStart y ∧ yearStart y ≤ 145731 := by
  decide

set_option maxRecDepth 2000 in
theorem yearStart_succ_le : ∀ y : Nat, y < 400 → yearStart ((y : Int) + 1) ≤ yearStart y + 366 := by
  decide

set_option maxRecDepth 2000 in
theorem dayFromDoy_facts : ∀ t : Nat, t < 366 →
    1 ≤ dayFromDoy t ∧ dayFromDoy t - 1 ≤ (t : Int) ∧
      dayFromDoy ((t : Int) - (dayFromDoy t - 1)) = 1 := by decide

theorem yoe_zero : yoeOf 0 = 0 := by decide

theorem yoe_top : yoeOf 146096 = 399 := by decide

theorem yoe_almost_top : yoeOf 146095 = 399 := by decide

theorem yearStart_399 : yearStart 399 = 145731 := by decide

theorem yoeOf_range (doe : Int) (h0 : 0 ≤ doe) (h1 : doe ≤ 146096) :
    0 ≤ yoeOf doe ∧ yoeOf doe ≤ 399 := by
  rcases eq_or_lt_of_le h1 with he | hlt
  · rw [he, yoe_top]; exact ⟨by norm_num, le_refl _⟩
  · constructor
    · have h := yoeOf_mono 0 doe (le_refl 0) h0 (by omega)
      rw [yoe_zero] at h; exact h
    · have h := yoeOf_mono doe 146095 h0 (by omega) (by omega)
      rw [yoe_almost_top] at h; exact h

theorem yoe_yearStart_int (y : Int) (h0 : 0 ≤ y) (h1 : y ≤ 399) :
    yoeOf (yearStart y) = y := by
  have hy : y = ((y.toNat : Nat) : Int) := by omega
  rw [hy]
  exact yoe_yearStart y.toNat (by omega)

theorem yearStart_bounds_int (y : Int) (h0 : 0 ≤ y) (h1 : y ≤ 399) :
    0 ≤ yearStart y ∧ yearStart y ≤ 145731 := by
  have hy : y = ((y.toNat : Nat) : Int) := by omega
  rw [hy]
  exact yearStart_bounds y.toNat (by omega)

theorem doy_lower (doe : Int) (h0 : 0 ≤ doe) (h1 : doe ≤ 146096) : 0 ≤ doyOf doe := by
  unfold doyOf
  by_contra hneg
  push_neg at hneg
  have hyr := yoeOf_range doe h0 h1
  have hy1 : 1 ≤ yoeOf doe := by
    by_contra hy0
    push_neg at hy0
    have hz : yoeOf doe = 0 := by omega
    rw [hz] at hneg
    have hys0 : yearStart 0 = 0 := by decide
    omega
  have hcast : yoeOf doe = (((yoeOf doe).toNat : Nat) : Int) := by omega
  have hpred : yoeOf (yearStart (yoeOf doe) - 1) = yoeOf doe - 1 := by
    rw [hcast]
    exact yoe_yearStart_pred (yoeOf doe).toNat (by omega) (by omega)
  have hble : yearStart (yoeOf doe) - 1 ≤ 146095 := by
    have h := yearStart_bounds_int (yoeOf doe) (by omega) (by omega)
    omega
  have hmono := yoeOf_mono doe (yearStart (yoeOf doe) - 1) h0 (by omega) hble
  rw [hpred] at hmono
  omega

theorem doy_upper (doe : Int) (h0 : 0 ≤ doe) (h1 : doe ≤ 146096) : doyOf doe ≤ 365 := by
  unfold doyOf
  by_contra hbig
  push_neg at hbig
  have hyr := yoeOf_range doe h0 h1
  rcases eq_or_lt_of_le hyr.2 with h399 | hlt399
  · rw [h399, yearStart_399] at hbig
    omega
  · have hdoe' : doe ≤ 146095 := by
      by_contra hd
      push_neg at hd
      have he : doe = 146096 := by omega
      rw [he, yoe_top] at hlt399
      omega
    have hcast : yoeOf doe = (((yoeOf doe).toNat : Nat) : Int) := by omega
    have hsucc : yearStart (yoeOf doe + 1) ≤ yearStart (yoeOf doe) + 366 := by
      rw [hcast]
      exact yearStart_succ_le (yoeOf doe).toNat (by omega)
    have hys1 := yearStart_bounds_int (yoeOf doe + 1) (by omega) (by omega)
    have hmono := yoeOf_mono (yearStart (yoeOf doe + 1)) doe (by omega) (by omega) hdoe'
    rw [yoe_yearStart_int (yoeOf doe + 1) (by omega) (by omega)] at hmono
    omega

theorem yoe_sub (doe k : Int) (h0 : 0 ≤ doe) (h1 : doe ≤ 146096)
    (hk0 : 0 ≤ k) (hk1 : k ≤ doyOf doe) :
    yoeOf (doe - k) = yoeOf doe ∧ doyOf (doe - k) = doyOf doe - k := by
  rcases eq_or_lt_of_le hk0 with hk | hkpos
  · rw [← hk]
    constructor
    · norm_num
    · norm_num
  · have hyr := yoeOf_range doe h0 h1
    have hysB := yearStart_bounds_int (yoeOf doe) hyr.1 hyr.2
    have hdoyl : doyOf doe = doe - yearStart (yoeOf doe) := rfl
    have hub : yoeOf (doe - k) ≤ yoeOf doe := by
      rcases eq_or_lt_of_le h1 with he | hlt
      · have h := (yoeOf_range (doe - k) (by omega) (by omega)).2
        rw [he, yoe_top]
        rw [he] at h
        exact h
      · exact yoeOf_mono (doe - k) doe (by omega) (by omega) (by omega)
    have hlb : yoeOf doe ≤ yoeOf (doe - k) := by
      have hmono := yoeOf_mono (yearStart (yoeOf doe)) (doe - k) hysB.1 (by omega) (by omega)
      rw [yoe_yearStart_int (yoeOf doe) hyr.1 hyr.2] at hmono
      exact hmono
    have heq : yoeOf (doe - k) = yoeOf doe := le_antisymm hub hlb
    refine ⟨heq, ?_⟩
    unfold doyOf
    rw [heq]
    omega

theorem civilDayOfDoe_facts (doe : Int) (h0 : 0 ≤ doe) (h1 : doe ≤ 146096) :
    1 ≤ civilDayOfDoe doe ∧ civilDayOfDoe doe - 1 ≤ doe ∧
      civilDayOfDoe (doe - (civilDayOfDoe doe - 1)) = 1 := by
  have hdl := doy_lower doe h0 h1
  have hdu := doy_upper doe h0 h1
  have hcast : doyOf doe = (((doyOf doe).toNat : Nat) : Int) := by omega
  have hft := dayFromDoy_facts (doyOf doe).toNat (by omega)
  have h1d : 1 ≤ dayFromDoy (doyOf doe) := by rw [hcast]; exact hft.1
  have h2d : dayFromDoy (doyOf doe) - 1 ≤ doyOf doe := by rw [hcast]; exact hft.2.1
  have h3d : dayFromDoy (doyOf doe - (dayFromDoy (doyOf doe) - 1)) = 1 := by
    rw [hcast]; exact hft.2.2
  refine ⟨h1d, ?_, ?_⟩
  · have hyr := yoeOf_range doe h0 h1
    have hysB := yearStart_bounds_int (yoeOf doe) hyr.1 hyr.2
    have hdoy : doyOf doe = doe - yearStart (yoeOf doe) := rfl
    unfold civilDayOfDoe
    omega
  · unfold civilDayOfDoe
    have hsub := yoe_sub doe (dayFromDoy (doyOf doe) - 1) h0 h1 (by omega) h2d
    rw [hsub.2]
    exact h3d

theorem dayOfMonth_pos (n : Int) : 1 ≤ dayOfMonth n := by
  unfold dayOfMonth
  rw [civilDay_eq_doe]
  have h0 : 0 ≤ Int.emod (epochDays n + 719468) 146097 := Int.emod_nonneg _ (by decide)
  have h1 : Int.emod (epochDays n + 719468) 146097 < 146097 :=
    Int.emod_lt_of_pos _ (by decide)
  exact (civilDayOfDoe_facts _ h0 (by omega)).1

theorem epochDays_monthFloor (n : Int) :
    epochDays (monthFloor n) = epochDays n - (dayOfMonth n - 1) := by
  unfold monthFloor floorDay epochDays
  simp only [ediv_eq_div]
  omega

theorem dayOfMonth_monthFloor (n : Int) : dayOfMonth (monthFloor n) = 1 := by
  have hdn : dayOfMonth n = civilDayOfDoe (Int.emod (epochDays n + 719468) 146097) := by
    unfold dayOfMonth; rw [civilDay_eq_doe]
  have h0 : 0 ≤ Int.emod (epochDays n + 719468) 146097 := Int.emod_nonneg _ (by decide)
  have h1 : Int.emod (epochDays n + 719468) 146097 < 146097 :=
    Int.emod_lt_of_pos _ (by decide)
  have hfacts := civilDayOfDoe_facts (Int.emod (epochDays n + 719468) 146097) h0 (by omega)
  unfold dayOfMonth
  rw [civilDay_eq_doe, epochDays_monthFloor, hdn]
  have hshift :
      Int.emod (epochDays n -
          (civilDayOfDoe (Int.emod (epochDays n + 719468) 146097) - 1) + 719468) 146097
      = Int.emod (epochDays n + 719468) 146097 -
          (civilDayOfDoe (Int.emod (epochDays n + 719468) 146097) - 1) := by
    have h2 := hfacts.2.1
    have h3 := hfacts.1
    generalize hD : civilDayOfDoe (Int.emod (epochDays n + 719468) 146097) = D at h2 h3 ⊢
    simp only [emod_eq_mod] at h0 h1 h2 ⊢
    omega
  rw [hshift]
  exact hfacts.2.2

theorem floorDay_monthFloor (n : Int) : floorDay (monthFloor n) = monthFloor n := by
  unfold monthFloor floorDay
  omega

theorem monthFloor_idem (n : Int) : monthFloor (monthFloor n) = monthFloor n := by
  have h1 := floorDay_monthFloor n
  have h2 := dayOfMonth_monthFloor n
  calc monthFloor (monthFloor n)
      = floorDay (monthFloor n) - 86400 * (dayOfMonth (monthFloor n) - 1) := rfl
    _ = monthFloor n := by rw [h1, h2]; ring

theorem monthFloor_le (n : Int) : monthFloor n ≤ n := by
  have hd := dayOfMonth_pos n
  unfold monthFloor floorDay
  omega

theorem monthStart_sd0 (n : Int) :
    monthFloor (floorDay n - 86400 * (dayOfMonth (floorDay n) - 1))
      = floorDay n - 86400 * (dayOfMonth (floorDay n) - 1) := by
  have h1 : floorDay n - 86400 * (dayOfMonth (floorDay n) - 1)
      = monthFloor (floorDay n) := by
    unfold monthFloor
    rw [floorDay_idem]
  rw [h1, monthFloor_idem]

theorem eStartSeq_naive_succ (tz : Tz) (sd : DT) (j : Nat) :
    (eStartSeq tz sd (j + 1)).naive = monthFloor ((eStartSeq tz sd j).naive - 1) := rfl

theorem eStartSeq_monthStart (tz : Tz) (sd : DT) (hms : monthFloor sd.naive = sd.naive) :
    ∀ j : Nat, monthFloor (eStartSeq tz sd j).naive = (eStartSeq tz sd j).naive := by
  intro j
  induction j with
  | zero => exact hms
  | succ j ih =>
    rw [eStartSeq_naive_succ]
    exact monthFloor_idem _

theorem eStartSeq_naive_lt (tz : Tz) (sd : DT) :
    ∀ j : Nat, (eStartSeq tz sd (j + 1)).naive < sd.naive := by
  intro j
  induction j with
  | zero =>
    rw [eStartSeq_naive_succ]
    have h := monthFloor_le ((eStartSeq tz sd 0).naive - 1)
    have h0 : (eStartSeq tz sd 0).naive = sd.naive := rfl
    omega
  | succ j ih =>
    rw [eStartSeq_naive_succ]
    have h := monthFloor_le ((eStartSeq tz sd (j + 1)).naive - 1)
    omega

/-! ### Lemmas about the retried per-period download -/

theorem downloadPowerDay_ok (parseTs : String → Int) (api : ApiP) (r : Req)
    (day : Int) (fl : Bool) (st : Store) (l : List PowerSample)
    (h0 : api r 0 = .ok l) (hne : l ≠ []) :
    downloadPowerDay parseTs api r day fl st =
      (.ok (stSet st (.power day fl) (.power (l.map (transformPower parseTs)))),
        [.apiCall r 0,
          .wrote (.power day fl) (.power (l.map (transformPower parseTs)))]) := by
  simp [downloadPowerDay, retry2, attemptPower, h0, writePowerCsv, hne]

theorem downloadEnergyMonth_ok (parseTs : String → Int) (api : ApiE) (r : Req)
    (mo : Int) (fl : Bool) (st : Store) (l : List EnergySample)
    (h0 : api r 0 = .ok l) (hne : l ≠ []) :
    downloadEnergyMonth parseTs api r mo fl st =
      (.ok (stSet st (.energy mo fl) (.energy (l.map (transformEnergy parseTs)))),
        [.apiCall r 0,
          .wrote (.energy mo fl) (.energy (l.map (transformEnergy parseTs)))]) := by
  simp [downloadEnergyMonth, retry2, attemptEnergy, h0, writeEnergyCsv, hne]

theorem attemptPower_ok_shape (parseTs : String → Int) (api : ApiP) (r : Req)
    (day : Int) (fl : Bool) (st : Store) (n : Nat) (st' : Store) (evs : List Ev)
    (h : attemptPower parseTs api r day fl st n = (.ok st', evs)) :
    ∃ a, st' = stSet st (.power day fl) a ∧
      evs = [.apiCall r n, .wrote (.power day fl) a] := by
  unfold attemptPower writePowerCsv at h
  rcases ha : api r n with c | samples <;> rw [ha] at h <;> dsimp only at h
  · exact absurd h (by simp)
  · by_cases hs : samples = []
    · rw [if_pos hs] at h
      exact absurd h (by simp)
    · rw [if_neg hs] at h
      dsimp only at h
      simp only [Prod.mk.injEq, Except.ok.injEq] at h
      exact ⟨.power (samples.map (transformPower parseTs)), h.1.symm, h.2.symm⟩

theorem attemptPower_error_shape (parseTs : String → Int) (api : ApiP) (r : Req)
    (day : Int) (fl : Bool) (st : Store) (n : Nat) (e : Err) (evs : List Ev)
    (h : attemptPower parseTs api r day fl st n = (.error e, evs)) :
    evs = [.apiCall r n] := by
  unfold attemptPower writePowerCsv at h
  rcases ha : api r n with c | samples <;> rw [ha] at h <;> dsimp only at h
  · simp only [Prod.mk.injEq] at h
    exact h.2.symm
  · by_cases hs : samples = []
    · rw [if_pos hs] at h
      dsimp only at h
      simp only [Prod.mk.injEq] at h
      exact h.2.symm
    · rw [if_neg hs] at h
      exact absurd h (by simp)

theorem attemptEnergy_ok_shape (parseTs : String → Int) (api : ApiE) (r : Req)
    (mo : Int) (fl : Bool) (st : Store) (n : Nat) (st' : Store) (evs : List Ev)
    (h : attemptEnergy parseTs api r mo fl st n = (.ok st', evs)) :
    ∃ a, st' = stSet st (.energy mo fl) a ∧
      evs = [.apiCall r n, .wrote (.energy mo fl) a] := by
  unfold attemptEnergy writeEnergyCsv at h
  rcases ha : api r n with c | samples <;> rw [ha] at h <;> dsimp only at h
  · exact absurd h (by simp)
  · by_cases hs : samples = []
    · rw [if_pos hs] at h
      exact absurd h (by simp)
    · rw [if_neg hs] at h
      dsimp only at h
      simp only [Prod.mk.injEq, Except.ok.injEq] at h
      exact ⟨.energy (samples.map (transformEnergy parseTs)), h.1.symm, h.2.symm⟩

theorem attemptEnergy_error_shape (parseTs : String → Int) (api : ApiE) (r : Req)
    (mo : Int) (fl : Bool) (st : Store) (n : Nat) (e : Err) (evs : List Ev)
    (h : attemptEnergy parseTs api r mo fl st n = (.error e, evs)) :
    evs = [.apiCall r n] := by
  unfold attemptEnergy writeEnergyCsv at h
  rcases ha : api r n with c | samples <;> rw [ha] at h <;> dsimp only at h
  · simp only [Prod.mk.injEq] at h
    exact h.2.symm
  · by_cases hs : samples = []
    · rw [if_pos hs] at h
      dsimp only at h
      simp only [Prod.mk.injEq] at h
      exact h.2.symm
    · rw [if_neg hs] at h
      exact absurd h (by simp)

theorem downloadPowerDay_ok_shape (parseTs : String → Int) (api : ApiP) (r : Req)
    (day : Int) (fl : Bool) (st : Store) (st' : Store) (evs : List Ev)
    (h : downloadPowerDay parseTs api r day fl st = (.ok st', evs)) :
    ∃ a, st' = stSet st (.power day fl) a ∧
      (∀ k b, Ev.wrote k b ∈ evs → k = .power day fl ∧ b = a) := by
  unfold downloadPowerDay retry2 at h
  rcases h0 : attemptPower parseTs api r day fl st 0 with ⟨res0, ev0⟩
  rw [h0] at h
  rcases res0 with e0 | s0
  · rcases h1 : attemptPower parseTs api r day fl st 1 with ⟨res1, ev1⟩
    rw [h1] at h
    rcases res1 with e1 | s1
    · exact absurd h (by simp)
    · injection h with hh1 hh2
      injection hh1 with hh1
      subst hh1 hh2
      obtain ⟨a, ha, hev⟩ := attemptPower_ok_shape _ _ _ _ _ _ _ _ _ h1
      have hev0 := attemptPower_error_shape _ _ _ _ _ _ _ _ _ h0
      refine ⟨a, ha, ?_⟩
      intro k b hb
      rw [hev0, hev] at hb
      simp at hb
      exact ⟨hb.1, hb.2⟩
  · injection h with hh1 hh2
    injection hh1 with hh1
    subst hh1 hh2
    obtain ⟨a, ha, hev⟩ := attemptPower_ok_shape _ _ _ _ _ _ _ _ _ h0
    refine ⟨a, ha, ?_⟩
    intro k b hb
    rw [hev] at hb
    simp at hb
    exact ⟨hb.1, hb.2⟩

theorem downloadPowerDay_error_shape (parseTs : String → Int) (api : ApiP) (r : Req)
    (day : Int) (fl : Bool) (st : Store) (e : Err) (evs : List Ev)
    (h : downloadPowerDay parseTs api r day fl st = (.error e, evs)) :
    evs = [.apiCall r 0, .sleepEv 5, .apiCall r 1] := by
  unfold downloadPowerDay retry2 at h
  rcases h0 : attemptPower parseTs api r day fl st 0 with ⟨res0, ev0⟩
  rw [h0] at h
  rcases res0 with e0 | s0
  · rcases h1 : attemptPower parseTs api r day fl st 1 with ⟨res1, ev1⟩
    rw [h1] at h
    rcases res1 with e1 | s1
    · injection h with hh1 hh2
      rw [attemptPower_error_shape _ _ _ _ _ _ _ _ _ h0,
        attemptPower_error_shape _ _ _ _ _ _ _ _ _ h1] at hh2
      exact hh2.symm
    · exact absurd h (by simp)
  · exact absurd h (by simp)

theorem downloadEnergyMonth_ok_shape (parseTs : String → Int) (api : ApiE) (r : Req)
    (mo : Int) (fl : Bool) (st : Store) (st' : Store) (evs : List Ev)
    (h : downloadEnergyMonth parseTs api r mo fl st = (.ok st', evs)) :
    ∃ a, st' = stSet st (.energy mo fl) a ∧
      (∀ k b, Ev.wrote k b ∈ evs → k = .energy mo fl ∧ b = a) := by
  unfold downloadEnergyMonth retry2 at h
  rcases h0 : attemptEnergy parseTs api r mo fl st 0 with ⟨res0, ev0⟩
  rw [h0] at h
  rcases res0 with e0 | s0
  · rcases h1 : attemptEnergy parseTs api r mo fl st 1 with ⟨res1, ev1⟩
    rw [h1] at h
    rcases res1 with e1 | s1
    · exact absurd h (by simp)
    · injection h with hh1 hh2
      injection hh1 with hh1
      subst hh1 hh2
      obtain ⟨a, ha, hev⟩ := attemptEnergy_ok_shape _ _ _ _ _ _ _ _ _ h1
      have hev0 := attemptEnergy_error_shape _ _ _ _ _ _ _ _ _ h0
      refine ⟨a, ha, ?_⟩
      intro k b hb
      rw [hev0, hev] at hb
      simp at hb
      exact ⟨hb.1, hb.2⟩
  · injection h with hh1 hh2
    injection hh1 with hh1
    subst hh1 hh2
    obtain ⟨a, ha, hev⟩ := attemptEnergy_ok_shape _ _ _ _ _ _ _ _ _ h0
    refine ⟨a, ha, ?_⟩
    intro k b hb
    rw [hev] at hb
    simp at hb
    exact ⟨hb.1, hb.2⟩

theorem downloadEnergyMonth_error_shape (parseTs : String → Int) (api : ApiE) (r : Req)
    (mo : Int) (fl : Bool) (st : Store) (e : Err) (evs : List Ev)
    (h : downloadEnergyMonth parseTs api r mo fl st = (.error e, evs)) :
    evs = [.apiCall r 0, .sleepEv 5, .apiCall r 1] := by
  unfold downloadEnergyMonth retry2 at h
  rcases h0 : attemptEnergy parseTs api r mo fl st 0 with ⟨res0, ev0⟩
  rw [h0] at h
  rcases res0 with e0 | s0
  · rcases h1 : attemptEnergy parseTs api r mo fl st 1 with ⟨res1, ev1⟩
    rw [h1] at h
    rcases res1 with e1 | s1
    · injection h with hh1 hh2
      rw [attemptEnergy_error_shape _ _ _ _ _ _ _ _ _ h0,
        attemptEnergy_error_shape _ _ _ _ _ _ _ _ _ h1] at hh2
      exact hh2.symm
    · exact absurd h (by simp)
  · exact absurd h (by simp)

/-! ### Unfolding equations for the two loops -/

theorem powerLoop_stop (tz : Tz) (parseTs : String → Int) (api : ApiP) (instI : Int)
    (fuel : Nat) (d : DT) (latest : Bool) (st : Store) (hc : d.instant ≤ instI) :
    powerLoop tz parseTs api instI fuel d latest st = ⟨.ok, st, []⟩ := by
  cases fuel <;> simp [powerLoop, hc]

theorem powerLoop_skip (tz : Tz) (parseTs : String → Int) (api : ApiP) (instI : Int)
    (fuel : Nat) (d : DT) (latest : Bool) (st : Store) (hc : ¬ d.instant ≤ instI)
    (hf : (latest || !stExists st (.power (floorDay d.naive) false)) = false) :
    powerLoop tz parseTs api instI (fuel + 1) d latest st =
      ⟨(powerLoop tz parseTs api instI fuel (localize tz (d.naive - 86400)) false st).status,
        (powerLoop tz parseTs api instI fuel (localize tz (d.naive - 86400)) false st).store,
        ⟨d, (powerReq tz d).startDt, (powerReq tz d).endDt, latest, st, false, []⟩ ::
          (powerLoop tz parseTs api instI fuel (localize tz (d.naive - 86400)) false st).trace⟩ := by
  simp [powerLoop, hc, hf]

theorem powerLoop_fetch_ok (tz : Tz) (parseTs : String → Int) (api : ApiP) (instI : Int)
    (fuel : Nat) (d : DT) (latest : Bool) (st st' : Store) (evs : List Ev)
    (hc : ¬ d.instant ≤ instI)
    (hf : (latest || !stExists st (.power (floorDay d.naive) false)) = true)
    (hd : downloadPowerDay parseTs api (powerReq tz d) (floorDay d.naive) latest st
      = (.ok st', evs)) :
    powerLoop tz parseTs api instI (fuel + 1) d latest st =
      ⟨(powerLoop tz parseTs api instI fuel (localize tz (d.naive - 86400)) false st').status,
        (powerLoop tz parseTs api instI fuel (localize tz (d.naive - 86400)) false st').store,
        ⟨d, (powerReq tz d).startDt, (powerReq tz d).endDt, latest, st, true,
            evs ++ [.sleepEv 1]⟩ ::
          (powerLoop tz parseTs api instI fuel (localize tz (d.naive - 86400)) false st').trace⟩ := by
  simp [powerLoop, hc, hf, hd]

theorem powerLoop_fetch_err (tz : Tz) (parseTs : String → Int) (api : ApiP) (instI : Int)
    (fuel : Nat) (d : DT) (latest : Bool) (st : Store) (e : Err) (evs : List Ev)
    (hc : ¬ d.instant ≤ instI)
    (hf : (latest || !stExists st (.power (floorDay d.naive) false)) = true)
    (hd : downloadPowerDay parseTs api (powerReq tz d) (floorDay d.naive) latest st
      = (.error e, evs)) :
    powerLoop tz parseTs api instI (fuel + 1) d latest st =
      ⟨.raised e, st,
        [⟨d, (powerReq tz d).startDt, (powerReq tz d).endDt, latest, st, true, evs⟩]⟩ := by
  simp [powerLoop, hc, hf, hd]

theorem energyLoop_stop (tz : Tz) (parseTs : String → Int) (api : ApiE) (instI : Int)
    (fuel : Nat) (sd ed : DT) (latest : Bool) (st : Store) (hc : ed.instant ≤ instI) :
    energyLoop tz parseTs api instI fuel sd ed latest st = ⟨.ok, st, []⟩ := by
  cases fuel <;> simp [energyLoop, hc]

theorem energyLoop_skip (tz : Tz) (parseTs : String → Int) (api : ApiE) (instI : Int)
    (fuel : Nat) (sd ed : DT) (latest : Bool) (st : Store) (hc : ¬ ed.instant ≤ instI)
    (hf : (latest || !stExists st (.energy (monthFloor sd.naive) false)) = false) :
    energyLoop tz parseTs api instI (fuel + 1) sd ed latest st =
      ⟨(energyLoop tz parseTs api instI fuel (energyStep tz sd).1 (energyStep tz sd).2
          false st).status,
        (energyLoop tz parseTs api instI fuel (energyStep tz sd).1 (energyStep tz sd).2
          false st).store,
        ⟨sd, sd, ed, latest, st, false, []⟩ ::
          (energyLoop tz parseTs api instI fuel (energyStep tz sd).1 (energyStep tz sd).2
            false st).trace⟩ := by
  simp [energyLoop, hc, hf]

theorem energyLoop_fetch_ok (tz : Tz) (parseTs : String → Int) (api : ApiE) (instI : Int)
    (fuel : Nat) (sd ed : DT) (latest : Bool) (st st' : Store) (evs : List Ev)
    (hc : ¬ ed.instant ≤ instI)
    (hf : (latest || !stExists st (.energy (monthFloor sd.naive) false)) = true)
    (hd : downloadEnergyMonth parseTs api ⟨sd, ed⟩ (monthFloor sd.naive) latest st
      = (.ok st', evs)) :
    energyLoop tz parseTs api instI (fuel + 1) sd ed latest st =
      ⟨(energyLoop tz parseTs api instI fuel (energyStep tz sd).1 (energyStep tz sd).2
          false st').status,
        (energyLoop tz parseTs api instI fuel (energyStep tz sd).1 (energyStep tz sd).2
          false st').store,
        ⟨sd, sd, ed, latest, st, true, evs ++ [.sleepEv 1]⟩ ::
          (energyLoop tz parseTs api instI fuel (energyStep tz sd).1 (energyStep tz sd).2
            false st').trace⟩ := by
  simp [energyLoop, hc, hf, hd]

theorem energyLoop_fetch_err (tz : Tz) (parseTs : String → Int) (api : ApiE) (instI : Int)
    (fuel : Nat) (sd ed : DT) (latest : Bool) (st : Store) (e : Err) (evs : List Ev)
    (hc : ¬ ed.instant ≤ instI)
    (hf : (latest || !stExists st (.energy (monthFloor sd.naive) false)) = true)
    (hd : downloadEnergyMonth parseTs api ⟨sd, ed⟩ (monthFloor sd.naive) latest st
      = (.error e, evs)) :
    energyLoop tz parseTs api instI (fuel + 1) sd ed latest st =
      ⟨.raised e, st, [⟨sd, sd, ed, latest, st, true, evs⟩]⟩ := by
  simp [energyLoop, hc, hf, hd]

theorem powerLoop_fuel_out (tz : Tz) (parseTs : String → Int) (api : ApiP) (instI : Int)
    (d : DT) (latest : Bool) (st : Store) (hc : ¬ d.instant ≤ instI) :
    powerLoop tz parseTs api instI 0 d latest st = ⟨.fuelOut, st, []⟩ := by
  simp [powerLoop, hc]

theorem energyLoop_fuel_out (tz : Tz) (parseTs : String → Int) (api : ApiE) (instI : Int)
    (sd ed : DT) (latest : Bool) (st : Store) (hc : ¬ ed.instant ≤ instI) :
    energyLoop tz parseTs api instI 0 sd ed latest st = ⟨.fuelOut, st, []⟩ := by
  simp [energyLoop, hc]

/-! ### Per-iteration invariants of the power loop -/

theorem powerLoop_iter_inv (tz : Tz) (parseTs : String → Int) (api : ApiP) (instI : Int)
    (fuel : Nat) (d : DT) (latest : Bool) (st : Store) :
    ∀ it ∈ (powerLoop tz parseTs api instI fuel d latest st).trace,
      instI < it.date.instant ∧
      it.startDt = localize tz (floorDay it.date.naive) ∧
      it.endDt = localize tz (floorDay it.date.naive + 86399) ∧
      it.fetched = (it.latest || !stExists it.stBefore (.power (floorDay it.date.naive) false)) ∧
      (∀ k a, Ev.wrote k a ∈ it.events → k = .power (floorDay it.date.naive) it.latest) := by
  induction fuel generalizing d latest st with
  | zero =>
    intro it hit
    by_cases hc : d.instant ≤ instI
    · rw [powerLoop_stop tz parseTs api instI 0 d latest st hc] at hit
      exact absurd hit (List.not_mem_nil it)
    · rw [powerLoop_fuel_out tz parseTs api instI d latest st hc] at hit
      exact absurd hit (List.not_mem_nil it)
  | succ fuel ih =>
    intro it hit
    by_cases hc : d.instant ≤ instI
    · rw [powerLoop_stop tz parseTs api instI _ d latest st hc] at hit
      exact absurd hit (List.not_mem_nil it)
    · by_cases hf : (latest || !stExists st (.power (floorDay d.naive) false)) = true
      · rcases hd : downloadPowerDay parseTs api (powerReq tz d) (floorDay d.naive) latest st
          with ⟨res, evs⟩
        rcases res with e | st'
        · rw [powerLoop_fetch_err tz parseTs api instI fuel d latest st e evs hc hf hd] at hit
          rcases List.mem_singleton.mp hit with rfl
          refine ⟨lt_of_not_le hc, rfl, rfl, hf.symm, ?_⟩
          intro k a hk
          rw [downloadPowerDay_error_shape _ _ _ _ _ _ _ _ hd] at hk
          simp at hk
        · rw [powerLoop_fetch_ok tz parseTs api instI fuel d latest st st' evs hc hf hd] at hit
          rcases List.mem_cons.mp hit with rfl | hit'
          · refine ⟨lt_of_not_le hc, rfl, rfl, hf.symm, ?_⟩
            intro k a hk
            obtain ⟨a', _, hkey⟩ := downloadPowerDay_ok_shape _ _ _ _ _ _ _ _ hd
            rcases List.mem_append.mp hk with hk' | hk'
            · exact (hkey k a hk').1
            · simp at hk'
          · exact ih _ _ _ it hit'
      · have hf' : (latest || !stExists st (.power (floorDay d.naive) false)) = false := by
          simpa using hf
        rw [powerLoop_skip tz parseTs api instI fuel d latest st hc hf'] at hit
        rcases List.mem_cons.mp hit with rfl | hit'
        · refine ⟨lt_of_not_le hc, rfl, rfl, hf'.symm, ?_⟩
          intro k a hk
          exact absurd hk (List.not_mem_nil _)
        · exact ih _ _ _ it hit'

theorem powerLoop_trace_get? (tz : Tz) (parseTs : String → Int) (api : ApiP) (instI : Int)
    (fuel : Nat) :
    ∀ (d : DT) (latest : Bool) (st : Store) (j : Nat) (it : Iter),
      (powerLoop tz parseTs api instI fuel d latest st).trace.get? j = some it →
      it.date = powerDateSeq tz d j ∧ it.latest = (latest && (j == 0)) := by
  induction fuel with
  | zero =>
    intro d latest st j it h
    by_cases hc : d.instant ≤ instI
    · rw [powerLoop_stop tz parseTs api instI 0 d latest st hc] at h
      exact absurd h (by simp)
    · rw [powerLoop_fuel_out tz parseTs api instI d latest st hc] at h
      exact absurd h (by simp)
  | succ fuel ih =>
    intro d latest st j it h
    by_cases hc : d.instant ≤ instI
    · rw [powerLoop_stop tz parseTs api instI _ d latest st hc] at h
      exact absurd h (by simp)
    · by_cases hf : (latest || !stExists st (.power (floorDay d.naive) false)) = true
      · rcases hd : downloadPowerDay parseTs api (powerReq tz d) (floorDay d.naive) latest st
          with ⟨res, evs⟩
        rcases res with e | st'
        · rw [powerLoop_fetch_err tz parseTs api instI fuel d latest st e evs hc hf hd] at h
          match j, h with
          | 0, h =>
            simp only [List.get?] at h
            injection h with h
            subst h
            exact ⟨rfl, by simp⟩
          | j + 1, h => simp at h
        · rw [powerLoop_fetch_ok tz parseTs api instI fuel d latest st st' evs hc hf hd] at h
          match j, h with
          | 0, h =>
            simp only [List.get?] at h
            injection h with h
            subst h
            exact ⟨rfl, by simp⟩
          | j + 1, h =>
            simp only [List.get?] at h
            have := ih (localize tz (d.naive - 86400)) false st' j it h
            refine ⟨?_, ?_⟩
            · rw [this.1, powerDateSeq_shift]
              rfl
            · rw [this.2]
              simp
      · have hf' : (latest || !stExists st (.power (floorDay d.naive) false)) = false := by
          simpa using hf
        rw [powerLoop_skip tz parseTs api instI fuel d latest st hc hf'] at h
        match j, h with
        | 0, h =>
          simp only [List.get?] at h
          injection h with h
          subst h
          exact ⟨rfl, by simp⟩
        | j + 1, h =>
          simp only [List.get?] at h
          have := ih (localize tz (d.naive - 86400)) false st j it h
          refine ⟨?_, ?_⟩
          · rw [this.1, powerDateSeq_shift]
            rfl
          · rw [this.2]
            simp

theorem powerLoop_len_ok (tz : Tz) (parseTs : String → Int) (api : ApiP) (instI : Int)
    (fuel : Nat) :
    ∀ (d : DT) (latest : Bool) (st : Store),
      (powerLoop tz parseTs api instI fuel d latest st).status = .ok →
      (powerDateSeq tz d
        ((powerLoop tz parseTs api instI fuel d latest st).trace.length)).instant ≤ instI := by
  induction fuel with
  | zero =>
    intro d latest st hst
    by_cases hc : d.instant ≤ instI
    · rw [powerLoop_stop tz parseTs api instI 0 d latest st hc]
      exact hc
    · rw [powerLoop_fuel_out tz parseTs api instI d latest st hc] at hst
      exact absurd hst (by simp)
  | succ fuel ih =>
    intro d latest st hst
    by_cases hc : d.instant ≤ instI
    · rw [powerLoop_stop tz parseTs api instI _ d latest st hc]
      exact hc
    · by_cases hf : (latest || !stExists st (.power (floorDay d.naive) false)) = true
      · rcases hd : downloadPowerDay parseTs api (powerReq tz d) (floorDay d.naive) latest st
          with ⟨res, evs⟩
        rcases res with e | st'
        · rw [powerLoop_fetch_err tz parseTs api instI fuel d latest st e evs hc hf hd] at hst
          exact absurd hst (by simp)
        · rw [powerLoop_fetch_ok tz parseTs api instI fuel d latest st st' evs hc hf hd] at hst ⊢
          have := ih (localize tz (d.naive - 86400)) false st' hst
          show (powerDateSeq tz d ((powerLoop tz parseTs api instI fuel
            (localize tz (d.naive - 86400)) false st').trace.length + 1)).instant ≤ instI
          rw [powerDateSeq_shift]
          exact this
      · have hf' : (latest || !stExists st (.power (floorDay d.naive) false)) = false := by
          simpa using hf
        rw [powerLoop_skip tz parseTs api instI fuel d latest st hc hf'] at hst ⊢
        have := ih (localize tz (d.naive - 86400)) false st hst
        show (powerDateSeq tz d ((powerLoop tz parseTs api instI fuel
          (localize tz (d.naive - 86400)) false st).trace.length + 1)).instant ≤ instI
        rw [powerDateSeq_shift]
        exact this

theorem powerLoop_exists_mono (tz : Tz) (parseTs : String → Int) (api : ApiP) (instI : Int)
    (fuel : Nat) :
    ∀ (d : DT) (latest : Bool) (st : Store) (k : SKey),
      stExists st k = true →
      stExists (powerLoop tz parseTs api instI fuel d latest st).store k = true := by
  induction fuel with
  | zero =>
    intro d latest st k hk
    by_cases hc : d.instant ≤ instI
    · rw [powerLoop_stop tz parseTs api instI 0 d latest st hc]
      exact hk
    · rw [powerLoop_fuel_out tz parseTs api instI d latest st hc]
      exact hk
  | succ fuel ih =>
    intro d latest st k hk
    by_cases hc : d.instant ≤ instI
    · rw [powerLoop_stop tz parseTs api instI _ d latest st hc]
      exact hk
    · by_cases hf : (latest || !stExists st (.power (floorDay d.naive) false)) = true
      · rcases hd : downloadPowerDay parseTs api (powerReq tz d) (floorDay d.naive) latest st
          with ⟨res, evs⟩
        rcases res with e | st'
        · rw [powerLoop_fetch_err tz parseTs api instI fuel d latest st e evs hc hf hd]
          exact hk
        · rw [powerLoop_fetch_ok tz parseTs api instI fuel d latest st st' evs hc hf hd]
          obtain ⟨a, ha, _⟩ := downloadPowerDay_ok_shape _ _ _ _ _ _ _ _ hd
          refine ih _ _ _ _ ?_
          rw [ha, stExists_stSet, hk]
          simp
      · have hf' : (latest || !stExists st (.power (floorDay d.naive) false)) = false := by
          simpa using hf
        rw [powerLoop_skip tz parseTs api instI fuel d latest st hc hf']
        exact ih _ _ _ _ hk

theorem powerLoop_partial_get (tz : Tz) (parseTs : String → Int) (api : ApiP) (instI : Int)
    (fuel : Nat) :
    ∀ (d : DT) (st : Store) (x : Int),
      stGet (powerLoop tz parseTs api instI fuel d false st).store (.power x true)
        = stGet st (.power x true) := by
  induction fuel with
  | zero =>
    intro d st x
    by_cases hc : d.instant ≤ instI
    · rw [powerLoop_stop tz parseTs api instI 0 d false st hc]
    · rw [powerLoop_fuel_out tz parseTs api instI d false st hc]
  | succ fuel ih =>
    intro d st x
    by_cases hc : d.instant ≤ instI
    · rw [powerLoop_stop tz parseTs api instI _ d false st hc]
    · by_cases hf : (false || !stExists st (.power (floorDay d.naive) false)) = true
      · rcases hd : downloadPowerDay parseTs api (powerReq tz d) (floorDay d.naive) false st
          with ⟨res, evs⟩
        rcases res with e | st'
        · rw [powerLoop_fetch_err tz parseTs api instI fuel d false st e evs hc hf hd]
        · rw [powerLoop_fetch_ok tz parseTs api instI fuel d false st st' evs hc hf hd]
          obtain ⟨a, ha, _⟩ := downloadPowerDay_ok_shape _ _ _ _ _ _ _ _ hd
          rw [ih _ _ _, ha, stGet_stSet_ne]
          intro hh
          injection hh with h1 h2
          simp at h2
      · have hf' : (false || !stExists st (.power (floorDay d.naive) false)) = false := by
          simpa using hf
        rw [powerLoop_skip tz parseTs api instI fuel d false st hc hf']
        exact ih _ _ _

theorem powerLoop_energy_get (tz : Tz) (parseTs : String → Int) (api : ApiP) (instI : Int)
    (fuel : Nat) :
    ∀ (d : DT) (latest : Bool) (st : Store) (m : Int) (f : Bool),
      stGet (powerLoop tz parseTs api instI fuel d latest st).store (.energy m f)
        = stGet st (.energy m f) := by
  induction fuel with
  | zero =>
    intro d latest st m f
    by_cases hc : d.instant ≤ instI
    · rw [powerLoop_stop tz parseTs api instI 0 d latest st hc]
    · rw [powerLoop_fuel_out tz parseTs api instI d latest st hc]
  | succ fuel ih =>
    intro d latest st m f
    by_cases hc : d.instant ≤ instI
    · rw [powerLoop_stop tz parseTs api instI _ d latest st hc]
    · by_cases hf : (latest || !stExists st (.power (floorDay d.naive) false)) = true
      · rcases hd : downloadPowerDay parseTs api (powerReq tz d) (floorDay d.naive) latest st
          with ⟨res, evs⟩
        rcases res with e | st'
        · rw [powerLoop_fetch_err tz parseTs api instI fuel d latest st e evs hc hf hd]
        · rw [powerLoop_fetch_ok tz parseTs api instI fuel d latest st st' evs hc hf hd]
          obtain ⟨a, ha, _⟩ := downloadPowerDay_ok_shape _ _ _ _ _ _ _ _ hd
          rw [ih _ _ _ _ _, ha, stGet_stSet_ne]
          intro hh
          exact absurd hh (by simp)
      · have hf' : (latest || !stExists st (.power (floorDay d.naive) false)) = false := by
          simpa using hf
        rw [powerLoop_skip tz parseTs api instI fuel d latest st hc hf']
        exact ih _ _ _ _ _

theorem powerLoop_get_above (tz : Tz) (parseTs : String → Int) (api : ApiP) (instI : Int)
    (fuel : Nat) :
    ∀ (d : DT) (latest : Bool) (st : Store) (x : Int) (f : Bool),
      floorDay d.naive < x →
      stGet (powerLoop tz parseTs api instI fuel d latest st).store (.power x f)
        = stGet st (.power x f) := by
  induction fuel with
  | zero =>
    intro d latest st x f hx
    by_cases hc : d.instant ≤ instI
    · rw [powerLoop_stop tz parseTs api instI 0 d latest st hc]
    · rw [powerLoop_fuel_out tz parseTs api instI d latest st hc]
  | succ fuel ih =>
    intro d latest st x f hx
    have hx' : floorDay (localize tz (d.naive - 86400)).naive < x := by
      show floorDay (d.naive - 86400) < x
      rw [floorDay_sub_day]
      omega
    by_cases hc : d.instant ≤ instI
    · rw [powerLoop_stop tz parseTs api instI _ d latest st hc]
    · by_cases hf : (latest || !stExists st (.power (floorDay d.naive) false)) = true
      · rcases hd : downloadPowerDay parseTs api (powerReq tz d) (floorDay d.naive) latest st
          with ⟨res, evs⟩
        rcases res with e | st'
        · rw [powerLoop_fetch_err tz parseTs api instI fuel d latest st e evs hc hf hd]
        · rw [powerLoop_fetch_ok tz parseTs api instI fuel d latest st st' evs hc hf hd]
          obtain ⟨a, ha, _⟩ := downloadPowerDay_ok_shape _ _ _ _ _ _ _ _ hd
          rw [ih _ _ _ _ _ hx', ha, stGet_stSet_ne]
          intro hh
          injection hh with h1 h2
          omega
      · have hf' : (latest || !stExists st (.power (floorDay d.naive) false)) = false := by
          simpa using hf
        rw [powerLoop_skip tz parseTs api instI fuel d latest st hc hf']
        exact ih _ _ _ _ _ hx'

theorem powerLoop_writes_persist (tz : Tz) (parseTs : String → Int) (api : ApiP) (instI : Int)
    (fuel : Nat) :
    ∀ (d : DT) (latest : Bool) (st : Store),
      ∀ it ∈ (powerLoop tz parseTs api instI fuel d latest st).trace,
        ∀ k a, Ev.wrote k a ∈ it.events →
          stGet (powerLoop tz parseTs api instI fuel d latest st).store k = some a := by
  induction fuel with
  | zero =>
    intro d latest st it hit
    by_cases hc : d.instant ≤ instI
    · rw [powerLoop_stop tz parseTs api instI 0 d latest st hc] at hit
      exact absurd hit (List.not_mem_nil it)
    · rw [powerLoop_fuel_out tz parseTs api instI d latest st hc] at hit
      exact absurd hit (List.not_mem_nil it)
  | succ fuel ih =>
    intro d latest st it hit
    by_cases hc : d.instant ≤ instI
    · rw [powerLoop_stop tz parseTs api instI _ d latest st hc] at hit
      exact absurd hit (List.not_mem_nil it)
    · by_cases hf : (latest || !stExists st (.power (floorDay d.naive) false)) = true
      · rcases hd : downloadPowerDay parseTs api (powerReq tz d) (floorDay d.naive) latest st
          with ⟨res, evs⟩
        rcases res with e | st'
        · rw [powerLoop_fetch_err tz parseTs api instI fuel d latest st e evs hc hf hd] at hit ⊢
          rcases List.mem_singleton.mp hit with rfl
          intro k a hk
          rw [downloadPowerDay_error_shape _ _ _ _ _ _ _ _ hd] at hk
          simp at hk
        · rw [powerLoop_fetch_ok tz parseTs api instI fuel d latest st st' evs hc hf hd] at hit ⊢
          obtain ⟨a0, ha0, hkey⟩ := downloadPowerDay_ok_shape _ _ _ _ _ _ _ _ hd
          rcases List.mem_cons.mp hit with rfl | hit'
          · intro k b hk
            rcases List.mem_append.mp hk with hk' | hk'
            · obtain ⟨hk1, hk2⟩ := hkey k b hk'
              subst hk1
              rw [hk2]
              show stGet (powerLoop tz parseTs api instI fuel
                (localize tz (d.naive - 86400)) false st').store
                  (.power (floorDay d.naive) latest) = some a0
              rw [powerLoop_get_above tz parseTs api instI fuel _ _ _ _ _
                  (by show floorDay (d.naive - 86400) < _
                      rw [floorDay_sub_day]
                      omega),
                ha0, stGet_stSet_self]
            · simp at hk'
          · exact ih _ _ _ it hit'
      · have hf' : (latest || !stExists st (.power (floorDay d.naive) false)) = false := by
          simpa using hf
        rw [powerLoop_skip tz parseTs api instI fuel d latest st hc hf'] at hit ⊢
        rcases List.mem_cons.mp hit with rfl | hit'
        · intro k a hk
          exact absurd hk (List.not_mem_nil _)
        · exact ih _ _ _ it hit'

theorem powerLoop_complete_after (tz : Tz) (parseTs : String → Int) (api : ApiP) (instI : Int)
    (fuel : Nat) :
    ∀ (d : DT) (latest : Bool) (st : Store),
      (powerLoop tz parseTs api instI fuel d latest st).status = .ok →
      ∀ (j : Nat) (it : Iter),
        (powerLoop tz parseTs api instI fuel d latest st).trace.get? j = some it →
        (latest = false ∨ 1 ≤ j) →
        stExists (powerLoop tz parseTs api instI fuel d latest st).store
          (.power (floorDay (powerDateSeq tz d j).naive) false) = true := by
  induction fuel with
  | zero =>
    intro d latest st hst j it hj hl
    by_cases hc : d.instant ≤ instI
    · rw [powerLoop_stop tz parseTs api instI 0 d latest st hc] at hj
      exact absurd hj (by simp)
    · rw [powerLoop_fuel_out tz parseTs api instI d latest st hc] at hj
      exact absurd hj (by simp)
  | succ fuel ih =>
    intro d latest st hst j it hj hl
    by_cases hc : d.instant ≤ instI
    · rw [powerLoop_stop tz parseTs api instI _ d latest st hc] at hj
      exact absurd hj (by simp)
    · by_cases hf : (latest || !stExists st (.power (floorDay d.naive) false)) = true
      · rcases hd : downloadPowerDay parseTs api (powerReq tz d) (floorDay d.naive) latest st
          with ⟨res, evs⟩
        rcases res with e | st'
        · rw [powerLoop_fetch_err tz parseTs api instI fuel d latest st e evs hc hf hd] at hst
          exact absurd hst (by simp)
        · rw [powerLoop_fetch_ok tz parseTs api instI fuel d latest st st' evs hc hf hd]
            at hst hj ⊢
          obtain ⟨a0, ha0, _⟩ := downloadPowerDay_ok_shape _ _ _ _ _ _ _ _ hd
          match j, hj with
          | 0, hj =>
            rcases hl with hl | hl
            · subst hl
              refine powerLoop_exists_mono tz parseTs api instI fuel _ _ _ _ ?_
              rw [ha0, stExists_stSet]
              simp [powerDateSeq]
            · exact absurd hl (by omega)
          | j + 1, hj =>
            simp only [List.get?] at hj
            have := ih (localize tz (d.naive - 86400)) false st' hst j it hj (Or.inl rfl)
            rw [powerDateSeq_shift]
            exact this
      · have hf' : (latest || !stExists st (.power (floorDay d.naive) false)) = false := by
          simpa using hf
        rw [powerLoop_skip tz parseTs api instI fuel d latest st hc hf'] at hst hj ⊢
        match j, hj with
        | 0, hj =>
          have hex : stExists st (.power (floorDay d.naive) false) = true := by
            rcases Bool.or_eq_false_iff.mp hf' with ⟨_, h2⟩
            simpa using h2
          refine powerLoop_exists_mono tz parseTs api instI fuel _ _ _ _ ?_
          simpa [powerDateSeq] using hex
        | j + 1, hj =>
          simp only [List.get?] at hj
          have := ih (localize tz (d.naive - 86400)) false st hst j it hj (Or.inl rfl)
          rw [powerDateSeq_shift]
          exact this

theorem powerLoop_skipAll (tz : Tz) (parseTs : String → Int) (api : ApiP) (instI : Int)
    (fuel : Nat) :
    ∀ (d : DT) (st : Store),
      (∀ j : Nat, (∀ i, i ≤ j → instI < (powerDateSeq tz d i).instant) →
        stExists st (.power (floorDay (powerDateSeq tz d j).naive) false) = true) →
      (powerLoop tz parseTs api instI fuel d false st).store = st ∧
      (∀ it ∈ (powerLoop tz parseTs api instI fuel d false st).trace, it.fetched = false) := by
  induction fuel with
  | zero =>
    intro d st H
    by_cases hc : d.instant ≤ instI
    · rw [powerLoop_stop tz parseTs api instI 0 d false st hc]
      exact ⟨rfl, by simp⟩
    · rw [powerLoop_fuel_out tz parseTs api instI d false st hc]
      exact ⟨rfl, by simp⟩
  | succ fuel ih =>
    intro d st H
    by_cases hc : d.instant ≤ instI
    · rw [powerLoop_stop tz parseTs api instI _ d false st hc]
      exact ⟨rfl, by simp⟩
    · have hex : stExists st (.power (floorDay d.naive) false) = true := by
        have := H 0 (fun i hi => by
          have hi0 : i = 0 := Nat.le_zero.mp hi
          subst hi0
          exact lt_of_not_le hc)
        simpa [powerDateSeq] using this
      have hf' : (false || !stExists st (.power (floorDay d.naive) false)) = false := by
        rw [hex]
        rfl
      rw [powerLoop_skip tz parseTs api instI fuel d false st hc hf']
      have H' : ∀ j : Nat,
          (∀ i, i ≤ j → instI < (powerDateSeq tz (localize tz (d.naive - 86400)) i).instant) →
          stExists st (.power
            (floorDay (powerDateSeq tz (localize tz (d.naive - 86400)) j).naive) false)
            = true := by
        intro j hj
        have := H (j + 1) (fun i hi => by
          match i, hi with
          | 0, _ => exact lt_of_not_le hc
          | i + 1, hi =>
            rw [powerDateSeq_shift]
            exact hj i (by omega))
        rw [powerDateSeq_shift] at this
        exact this
      obtain ⟨hs, ht⟩ := ih (localize tz (d.naive - 86400)) st H'
      refine ⟨hs, ?_⟩
      intro it hit
      rcases List.mem_cons.mp hit with rfl | hit'
      · rfl
      · exact ht it hit'

theorem powerLoop_status_ok_iff (tz : Tz) (parseTs : String → Int) (api : ApiP) (instI : Int)
    (hapi : goodApiP api) (fuel : Nat) :
    ∀ (d : DT) (latest : Bool) (st : Store),
      ((powerLoop tz parseTs api instI fuel d latest st).status = .ok ↔
        ∃ k, k ≤ fuel ∧ (powerDateSeq tz d k).instant ≤ instI) := by
  induction fuel with
  | zero =>
    intro d latest st
    by_cases hc : d.instant ≤ instI
    · rw [powerLoop_stop tz parseTs api instI 0 d latest st hc]
      exact iff_of_true rfl ⟨0, le_refl 0, hc⟩
    · rw [powerLoop_fuel_out tz parseTs api instI d latest st hc]
      constructor
      · intro h
        exact absurd h (by simp)
      · rintro ⟨k, hk, hle⟩
        have hk0 : k = 0 := Nat.le_zero.mp hk
        subst hk0
        exact absurd hle hc
  | succ fuel ih =>
    intro d latest st
    by_cases hc : d.instant ≤ instI
    · rw [powerLoop_stop tz parseTs api instI _ d latest st hc]
      exact iff_of_true rfl ⟨0, Nat.zero_le _, hc⟩
    · have hbridge : ∀ st'' : Store,
          ((powerLoop tz parseTs api instI fuel (localize tz (d.naive - 86400))
              false st'').status = .ok) ↔
          (∃ k, k ≤ fuel + 1 ∧ (powerDateSeq tz d k).instant ≤ instI) := by
        intro st''
        rw [ih (localize tz (d.naive - 86400)) false st'']
        constructor
        · rintro ⟨k, hk, hle⟩
          refine ⟨k + 1, by omega, ?_⟩
          rw [powerDateSeq_shift]
          exact hle
        · rintro ⟨k, hk, hle⟩
          match k, hk, hle with
          | 0, _, hle => exact absurd hle hc
          | k + 1, hk, hle =>
            refine ⟨k, by omega, ?_⟩
            rw [powerDateSeq_shift] at hle
            exact hle
      by_cases hf : (latest || !stExists st (.power (floorDay d.naive) false)) = true
      · obtain ⟨l, h0, hl⟩ := hapi (powerReq tz d) 0
        have hd := downloadPowerDay_ok parseTs api (powerReq tz d) (floorDay d.naive)
          latest st l h0 hl
        rw [powerLoop_fetch_ok tz parseTs api instI fuel d latest st _ _ hc hf hd]
        exact hbridge _
      · have hf' : (latest || !stExists st (.power (floorDay d.naive) false)) = false := by
          simpa using hf
        rw [powerLoop_skip tz parseTs api instI fuel d latest st hc hf']
        exact hbridge st

/-! ### Per-iteration invariants of the energy loop -/

theorem eEndSeq_shift (tz : Tz) (sd ed : DT) (j : Nat) :
    eEndSeq tz (energyStep tz sd).1 (energyStep tz sd).2 j = eEndSeq tz sd ed (j + 1) := by
  cases j with
  | zero => rfl
  | succ i =>
    show (eStartSeq tz (energyStep tz sd).1 i).subSec 1 = (eStartSeq tz sd (i + 1)).subSec 1
    rw [eStartSeq_shift]
    rfl

theorem energyLoop_iter_inv (tz : Tz) (parseTs : String → Int) (api : ApiE) (instI : Int)
    (fuel : Nat) :
    ∀ (sd ed : DT) (latest : Bool) (st : Store),
      ∀ it ∈ (energyLoop tz parseTs api instI fuel sd ed latest st).trace,
        instI < it.endDt.instant ∧
        it.startDt = it.date ∧
        it.fetched = (it.latest ||
          !stExists it.stBefore (.energy (monthFloor it.date.naive) false)) ∧
        (∀ k a, Ev.wrote k a ∈ it.events → k = .energy (monthFloor it.date.naive) it.latest) := by
  induction fuel with
  | zero =>
    intro sd ed latest st it hit
    by_cases hc : ed.instant ≤ instI
    · rw [energyLoop_stop tz parseTs api instI 0 sd ed latest st hc] at hit
      exact absurd hit (List.not_mem_nil it)
    · rw [energyLoop_fuel_out tz parseTs api instI sd ed latest st hc] at hit
      exact absurd hit (List.not_mem_nil it)
  | succ fuel ih =>
    intro sd ed latest st it hit
    by_cases hc : ed.instant ≤ instI
    · rw [energyLoop_stop tz parseTs api instI _ sd ed latest st hc] at hit
      exact absurd hit (List.not_mem_nil it)
    · by_cases hf : (latest || !stExists st (.energy (monthFloor sd.naive) false)) = true
      · rcases hd : downloadEnergyMonth parseTs api ⟨sd, ed⟩ (monthFloor sd.naive) latest st
          with ⟨res, evs⟩
        rcases res with e | st'
        · rw [energyLoop_fetch_err tz parseTs api instI fuel sd ed latest st e evs hc hf hd]
            at hit
          rcases List.mem_singleton.mp hit with rfl
          refine ⟨lt_of_not_le hc, rfl, hf.symm, ?_⟩
          intro k a hk
          rw [downloadEnergyMonth_error_shape _ _ _ _ _ _ _ _ hd] at hk
          simp at hk
        · rw [energyLoop_fetch_ok tz parseTs api instI fuel sd ed latest st st' evs hc hf hd]
            at hit
          rcases List.mem_cons.mp hit with rfl | hit'
          · refine ⟨lt_of_not_le hc, rfl, hf.symm, ?_⟩
            intro k a hk
            obtain ⟨a', _, hkey⟩ := downloadEnergyMonth_ok_shape _ _ _ _ _ _ _ _ hd
            rcases List.mem_append.mp hk with hk' | hk'
            · exact (hkey k a hk').1
            · simp at hk'
          · exact ih _ _ _ _ it hit'
      · have hf' : (latest || !stExists st (.energy (monthFloor sd.naive) false)) = false := by
          simpa using hf
        rw [energyLoop_skip tz parseTs api instI fuel sd ed latest st hc hf'] at hit
        rcases List.mem_cons.mp hit with rfl | hit'
        · refine ⟨lt_of_not_le hc, rfl, hf'.symm, ?_⟩
          intro k a hk
          exact absurd hk (List.not_mem_nil _)
        · exact ih _ _ _ _ it hit'

theorem energyLoop_trace_get? (tz : Tz) (parseTs : String → Int) (api : ApiE) (instI : Int)
    (fuel : Nat) :
    ∀ (sd ed : DT) (latest : Bool) (st : Store) (j : Nat) (it : Iter),
      (energyLoop tz parseTs api instI fuel sd ed latest st).trace.get? j = some it →
      it.date = eStartSeq tz sd j ∧ it.endDt = eEndSeq tz sd ed j ∧
        it.latest = (latest && (j == 0)) := by
  induction fuel with
  | zero =>
    intro sd ed latest st j it h
    by_cases hc : ed.instant ≤ instI
    · rw [energyLoop_stop tz parseTs api instI 0 sd ed latest st hc] at h
      exact absurd h (by simp)
    · rw [energyLoop_fuel_out tz parseTs api instI sd ed latest st hc] at h
      exact absurd h (by simp)
  | succ fuel ih =>
    intro sd ed latest st j it h
    by_cases hc : ed.instant ≤ instI
    · rw [energyLoop_stop tz parseTs api instI _ sd ed latest st hc] at h
      exact absurd h (by simp)
    · by_cases hf : (latest || !stExists st (.energy (monthFloor sd.naive) false)) = true
      · rcases hd : downloadEnergyMonth parseTs api ⟨sd, ed⟩ (monthFloor sd.naive) latest st
          with ⟨res, evs⟩
        rcases res with e | st'
        · rw [energyLoop_fetch_err tz parseTs api instI fuel sd ed latest st e evs hc hf hd] at h
          match j, h with
          | 0, h =>
            simp only [List.get?] at h
            injection h with h
            subst h
            exact ⟨rfl, rfl, by simp⟩
          | j + 1, h => simp at h
        · rw [energyLoop_fetch_ok tz parseTs api instI fuel sd ed latest st st' evs hc hf hd] at h
          match j, h with
          | 0, h =>
            simp only [List.get?] at h
            injection h with h
            subst h
            exact ⟨rfl, rfl, by simp⟩
          | j + 1, h =>
            simp only [List.get?] at h
            have := ih (energyStep tz sd).1 (energyStep tz sd).2 false st' j it h
            refine ⟨?_, ?_, ?_⟩
            · rw [this.1, eStartSeq_shift]
              rfl
            · rw [this.2.1, eEndSeq_shift tz sd ed j]
            · rw [this.2.2]
              simp
      · have hf' : (latest || !stExists st (.energy (monthFloor sd.naive) false)) = false := by
          simpa using hf
        rw [energyLoop_skip tz parseTs api instI fuel sd ed latest st hc hf'] at h
        match j, h with
        | 0, h =>
          simp only [List.get?] at h
          injection h with h
          subst h
          exact ⟨rfl, rfl, by simp⟩
        | j + 1, h =>
          simp only [List.get?] at h
          have := ih (energyStep tz sd).1 (energyStep tz sd).2 false st j it h
          refine ⟨?_, ?_, ?_⟩
          · rw [this.1, eStartSeq_shift]
            rfl
          · rw [this.2.1, eEndSeq_shift tz sd ed j]
          · rw [this.2.2]
            simp

theorem energyLoop_len_ok (tz : Tz) (parseTs : String → Int) (api : ApiE) (instI : Int)
    (fuel : Nat) :
    ∀ (sd ed : DT) (latest : Bool) (st : Store),
      (energyLoop tz parseTs api instI fuel sd ed latest st).status = .ok →
      (eEndSeq tz sd ed
        ((energyLoop tz parseTs api instI fuel sd ed latest st).trace.length)).instant
        ≤ instI := by
  induction fuel with
  | zero =>
    intro sd ed latest st hst
    by_cases hc : ed.instant ≤ instI
    · rw [energyLoop_stop tz parseTs api instI 0 sd ed latest st hc]
      exact hc
    · rw [energyLoop_fuel_out tz parseTs api instI sd ed latest st hc] at hst
      exact absurd hst (by simp)
  | succ fuel ih =>
    intro sd ed latest st hst
    by_cases hc : ed.instant ≤ instI
    · rw [energyLoop_stop tz parseTs api instI _ sd ed latest st hc]
      exact hc
    · by_cases hf : (latest || !stExists st (.energy (monthFloor sd.naive) false)) = true
      · rcases hd : downloadEnergyMonth parseTs api ⟨sd, ed⟩ (monthFloor sd.naive) latest st
          with ⟨res, evs⟩
        rcases res with e | st'
        · rw [energyLoop_fetch_err tz parseTs api instI fuel sd ed latest st e evs hc hf hd]
            at hst
          exact absurd hst (by simp)
        · rw [energyLoop_fetch_ok tz parseTs api instI fuel sd ed latest st st' evs hc hf hd]
            at hst ⊢
          have := ih (energyStep tz sd).1 (energyStep tz sd).2 false st' hst
          show (eEndSeq tz sd ed ((energyLoop tz parseTs api instI fuel
            (energyStep tz sd).1 (energyStep tz sd).2 false st').trace.length + 1)).instant
            ≤ instI
          rw [← eEndSeq_shift tz sd ed]
          exact this
      · have hf' : (latest || !stExists st (.energy (monthFloor sd.naive) false)) = false := by
          simpa using hf
        rw [energyLoop_skip tz parseTs api instI fuel sd ed latest st hc hf'] at hst ⊢
        have := ih (energyStep tz sd).1 (energyStep tz sd).2 false st hst
        show (eEndSeq tz sd ed ((energyLoop tz parseTs api instI fuel
          (energyStep tz sd).1 (energyStep tz sd).2 false st).trace.length + 1)).instant
          ≤ instI
        rw [← eEndSeq_shift tz sd ed]
        exact this

theorem energyLoop_exists_mono (tz : Tz) (parseTs : String → Int) (api : ApiE) (instI : Int)
    (fuel : Nat) :
    ∀ (sd ed : DT) (latest : Bool) (st : Store) (k : SKey),
      stExists st k = true →
      stExists (energyLoop tz parseTs api instI fuel sd ed latest st).store k = true := by
  induction fuel with
  | zero =>
    intro sd ed latest st k hk
    by_cases hc : ed.instant ≤ instI
    · rw [energyLoop_stop tz parseTs api instI 0 sd ed latest st hc]
      exact hk
    · rw [energyLoop_fuel_out tz parseTs api instI sd ed latest st hc]
      exact hk
  | succ fuel ih =>
    intro sd ed latest st k hk
    by_cases hc : ed.instant ≤ instI
    · rw [energyLoop_stop tz parseTs api instI _ sd ed latest st hc]
      exact hk
    · by_cases hf : (latest || !stExists st (.energy (monthFloor sd.naive) false)) = true
      · rcases hd : downloadEnergyMonth parseTs api ⟨sd, ed⟩ (monthFloor sd.naive) latest st
          with ⟨res, evs⟩
        rcases res with e | st'
        · rw [energyLoop_fetch_err tz parseTs api instI fuel sd ed latest st e evs hc hf hd]
          exact hk
        · rw [energyLoop_fetch_ok tz parseTs api instI fuel sd ed latest st st' evs hc hf hd]
          obtain ⟨a, ha, _⟩ := downloadEnergyMonth_ok_shape _ _ _ _ _ _ _ _ hd
          refine ih _ _ _ _ _ ?_
          rw [ha, stExists_stSet, hk]
          simp
      · have hf' : (latest || !stExists st (.energy (monthFloor sd.naive) false)) = false := by
          simpa using hf
        rw [energyLoop_skip tz parseTs api instI fuel sd ed latest st hc hf']
        exact ih _ _ _ _ _ hk

theorem energyLoop_partial_get (tz : Tz) (parseTs : String → Int) (api : ApiE) (instI : Int)
    (fuel : Nat) :
    ∀ (sd ed : DT) (st : Store) (x : Int),
      stGet (energyLoop tz parseTs api instI fuel sd ed false st).store (.energy x true)
        = stGet st (.energy x true) := by
  induction fuel with
  | zero =>
    intro sd ed st x
    by_cases hc : ed.instant ≤ instI
    · rw [energyLoop_stop tz parseTs api instI 0 sd ed false st hc]
    · rw [energyLoop_fuel_out tz parseTs api instI sd ed false st hc]
  | succ fuel ih =>
    intro sd ed st x
    by_cases hc : ed.instant ≤ instI
    · rw [energyLoop_stop tz parseTs api instI _ sd ed false st hc]
    · by_cases hf : (false || !stExists st (.energy (monthFloor sd.naive) false)) = true
      · rcases hd : downloadEnergyMonth parseTs api ⟨sd, ed⟩ (monthFloor sd.naive) false st
          with ⟨res, evs⟩
        rcases res with e | st'
        · rw [energyLoop_fetch_err tz parseTs api instI fuel sd ed false st e evs hc hf hd]
        · rw [energyLoop_fetch_ok tz parseTs api instI fuel sd ed false st st' evs hc hf hd]
          obtain ⟨a, ha, _⟩ := downloadEnergyMonth_ok_shape _ _ _ _ _ _ _ _ hd
          rw [ih _ _ _ _, ha, stGet_stSet_ne]
          intro hh
          injection hh with h1 h2
          simp at h2
      · have hf' : (false || !stExists st (.energy (monthFloor sd.naive) false)) = false := by
          simpa using hf
        rw [energyLoop_skip tz parseTs api instI fuel sd ed false st hc hf']
        exact ih _ _ _ _

theorem energyLoop_power_get (tz : Tz) (parseTs : String → Int) (api : ApiE) (instI : Int)
    (fuel : Nat) :
    ∀ (sd ed : DT) (latest : Bool) (st : Store) (m : Int) (f : Bool),
      stGet (energyLoop tz parseTs api instI fuel sd ed latest st).store (.power m f)
        = stGet st (.power m f) := by
  induction fuel with
  | zero =>
    intro sd ed latest st m f
    by_cases hc : ed.instant ≤ instI
    · rw [energyLoop_stop tz parseTs api instI 0 sd ed latest st hc]
    · rw [energyLoop_fuel_out tz parseTs api instI sd ed latest st hc]
  | succ fuel ih =>
    intro sd ed latest st m f
    by_cases hc : ed.instant ≤ instI
    · rw [energyLoop_stop tz parseTs api instI _ sd ed latest st hc]
    · by_cases hf : (latest || !stExists st (.energy (monthFloor sd.naive) false)) = true
      · rcases hd : downloadEnergyMonth parseTs api ⟨sd, ed⟩ (monthFloor sd.naive) latest st
          with ⟨res, evs⟩
        rcases res with e | st'
        · rw [energyLoop_fetch_err tz parseTs api instI fuel sd ed latest st e evs hc hf hd]
        · rw [energyLoop_fetch_ok tz parseTs api instI fuel sd ed latest st st' evs hc hf hd]
          obtain ⟨a, ha, _⟩ := downloadEnergyMonth_ok_shape _ _ _ _ _ _ _ _ hd
          rw [ih _ _ _ _ _ _, ha, stGet_stSet_ne]
          intro hh
          exact absurd hh (by simp)
      · have hf' : (latest || !stExists st (.energy (monthFloor sd.naive) false)) = false := by
          simpa using hf
        rw [energyLoop_skip tz parseTs api instI fuel sd ed latest st hc hf']
        exact ih _ _ _ _ _ _

theorem energyLoop_get_above (tz : Tz) (parseTs : String → Int) (api : ApiE) (instI : Int)
    (fuel : Nat) :
    ∀ (sd ed : DT) (latest : Bool) (st : Store) (x : Int) (f : Bool),
      sd.naive < x →
      stGet (energyLoop tz parseTs api instI fuel sd ed latest st).store (.energy x f)
        = stGet st (.energy x f) := by
  induction fuel with
  | zero =>
    intro sd ed latest st x f hx
    by_cases hc : ed.instant ≤ instI
    · rw [energyLoop_stop tz parseTs api instI 0 sd ed latest st hc]
    · rw [energyLoop_fuel_out tz parseTs api instI sd ed latest st hc]
  | succ fuel ih =>
    intro sd ed latest st x f hx
    have hx' : (energyStep tz sd).1.naive < x := by
      show monthFloor (sd.naive - 1) < x
      have h := monthFloor_le (sd.naive - 1)
      omega
    by_cases hc : ed.instant ≤ instI
    · rw [energyLoop_stop tz parseTs api instI _ sd ed latest st hc]
    · by_cases hf : (latest || !stExists st (.energy (monthFloor sd.naive) false)) = true
      · rcases hd : downloadEnergyMonth parseTs api ⟨sd, ed⟩ (monthFloor sd.naive) latest st
          with ⟨res, evs⟩
        rcases res with e | st'
        · rw [energyLoop_fetch_err tz parseTs api instI fuel sd ed latest st e evs hc hf hd]
        · rw [energyLoop_fetch_ok tz parseTs api instI fuel sd ed latest st st' evs hc hf hd]
          obtain ⟨a, ha, _⟩ := downloadEnergyMonth_ok_shape _ _ _ _ _ _ _ _ hd
          rw [ih _ _ _ _ _ _ hx', ha, stGet_stSet_ne]
          intro hh
          injection hh with h1 h2
          have h := monthFloor_le sd.naive
          omega
      · have hf' : (latest || !stExists st (.energy (monthFloor sd.naive) false)) = false := by
          simpa using hf
        rw [energyLoop_skip tz parseTs api instI fuel sd ed latest st hc hf']
        exact ih _ _ _ _ _ _ hx'

theorem energyLoop_writes_persist (tz : Tz) (parseTs : String → Int) (api : ApiE) (instI : Int)
    (fuel : Nat) :
    ∀ (sd ed : DT) (latest : Bool) (st : Store),
      monthFloor sd.naive = sd.naive →
      ∀ it ∈ (energyLoop tz parseTs api instI fuel sd ed latest st).trace,
        ∀ k a, Ev.wrote k a ∈ it.events →
          stGet (energyLoop tz parseTs api instI fuel sd ed latest st).store k = some a := by
  induction fuel with
  | zero =>
    intro sd ed latest st hms it hit
    by_cases hc : ed.instant ≤ instI
    · rw [energyLoop_stop tz parseTs api instI 0 sd ed latest st hc] at hit
      exact absurd hit (List.not_mem_nil it)
    · rw [energyLoop_fuel_out tz parseTs api instI sd ed latest st hc] at hit
      exact absurd hit (List.not_mem_nil it)
  | succ fuel ih =>
    intro sd ed latest st hms it hit
    have hms' : monthFloor (energyStep tz sd).1.naive = (energyStep tz sd).1.naive := by
      show monthFloor (monthFloor (sd.naive - 1)) = monthFloor (sd.naive - 1)
      exact monthFloor_idem _
    by_cases hc : ed.instant ≤ instI
    · rw [energyLoop_stop tz parseTs api instI _ sd ed latest st hc] at hit
      exact absurd hit (List.not_mem_nil it)
    · by_cases hf : (latest || !stExists st (.energy (monthFloor sd.naive) false)) = true
      · rcases hd : downloadEnergyMonth parseTs api ⟨sd, ed⟩ (monthFloor sd.naive) latest st
          with ⟨res, evs⟩
        rcases res with e | st'
        · rw [energyLoop_fetch_err tz parseTs api instI fuel sd ed latest st e evs hc hf hd]
            at hit ⊢
          rcases List.mem_singleton.mp hit with rfl
          intro k a hk
          rw [downloadEnergyMonth_error_shape _ _ _ _ _ _ _ _ hd] at hk
          simp at hk
        · rw [energyLoop_fetch_ok tz parseTs api instI fuel sd ed latest st st' evs hc hf hd]
            at hit ⊢
          obtain ⟨a0, ha0, hkey⟩ := downloadEnergyMonth_ok_shape _ _ _ _ _ _ _ _ hd
          rcases List.mem_cons.mp hit with rfl | hit'
          · intro k b hk
            rcases List.mem_append.mp hk with hk' | hk'
            · obtain ⟨hk1, hk2⟩ := hkey k b hk'
              subst hk1
              rw [hk2]
              show stGet (energyLoop tz parseTs api instI fuel
                (energyStep tz sd).1 (energyStep tz sd).2 false st').store
                  (.energy (monthFloor sd.naive) latest) = some a0
              rw [energyLoop_get_above tz parseTs api instI fuel _ _ _ _ _ _
                  (by show monthFloor (sd.naive - 1) < monthFloor sd.naive
                      have h := monthFloor_le (sd.naive - 1)
                      omega),
                ha0, stGet_stSet_self]
            · simp at hk'
          · exact ih _ _ _ _ hms' it hit'
      · have hf' : (latest || !stExists st (.energy (monthFloor sd.naive) false)) = false := by
          simpa using hf
        rw [energyLoop_skip tz parseTs api instI fuel sd ed latest st hc hf'] at hit ⊢
        rcases List.mem_cons.mp hit with rfl | hit'
        · intro k a hk
          exact absurd hk (List.not_mem_nil _)
        · exact ih _ _ _ _ hms' it hit'

theorem energyLoop_complete_after (tz : Tz) (parseTs : String → Int) (api : ApiE) (instI : Int)
    (fuel : Nat) :
    ∀ (sd ed : DT) (latest : Bool) (st : Store),
      (energyLoop tz parseTs api instI fuel sd ed latest st).status = .ok →
      ∀ (j : Nat) (it : Iter),
        (energyLoop tz parseTs api instI fuel sd ed latest st).trace.get? j = some it →
        (latest = false ∨ 1 ≤ j) →
        stExists (energyLoop tz parseTs api instI fuel sd ed latest st).store
          (.energy (monthFloor (eStartSeq tz sd j).naive) false) = true := by
  induction fuel with
  | zero =>
    intro sd ed latest st hst j it hj hl
    by_cases hc : ed.instant ≤ instI
    · rw [energyLoop_stop tz parseTs api instI 0 sd ed latest st hc] at hj
      exact absurd hj (by simp)
    · rw [energyLoop_fuel_out tz parseTs api instI sd ed latest st hc] at hj
      exact absurd hj (by simp)
  | succ fuel ih =>
    intro sd ed latest st hst j it hj hl
    by_cases hc : ed.instant ≤ instI
    · rw [energyLoop_stop tz parseTs api instI _ sd ed latest st hc] at hj
      exact absurd hj (by simp)
    · by_cases hf : (latest || !stExists st (.energy (monthFloor sd.naive) false)) = true
      · rcases hd : downloadEnergyMonth parseTs api ⟨sd, ed⟩ (monthFloor sd.naive) latest st
          with ⟨res, evs⟩
        rcases res with e | st'
        · rw [energyLoop_fetch_err tz parseTs api instI fuel sd ed latest st e evs hc hf hd]
            at hst
          exact absurd hst (by simp)
        · rw [energyLoop_fetch_ok tz parseTs api instI fuel sd ed latest st st' evs hc hf hd]
            at hst hj ⊢
          obtain ⟨a0, ha0, _⟩ := downloadEnergyMonth_ok_shape _ _ _ _ _ _ _ _ hd
          match j, hj with
          | 0, hj =>
            rcases hl with hl | hl
            · subst hl
              refine energyLoop_exists_mono tz parseTs api instI fuel _ _ _ _ _ ?_
              rw [ha0, stExists_stSet]
              simp [eStartSeq]
            · exact absurd hl (by omega)
          | j + 1, hj =>
            simp only [List.get?] at hj
            have := ih (energyStep tz sd).1 (energyStep tz sd).2 false st' hst j it hj
              (Or.inl rfl)
            rw [eStartSeq_shift]
            exact this
      · have hf' : (latest || !stExists st (.energy (monthFloor sd.naive) false)) = false := by
          simpa using hf
        rw [energyLoop_skip tz parseTs api instI fuel sd ed latest st hc hf'] at hst hj ⊢
        match j, hj with
        | 0, hj =>
          have hex : stExists st (.energy (monthFloor sd.naive) false) = true := by
            rcases Bool.or_eq_false_iff.mp hf' with ⟨_, h2⟩
            simpa using h2
          refine energyLoop_exists_mono tz parseTs api instI fuel _ _ _ _ _ ?_
          simpa [eStartSeq] using hex
        | j + 1, hj =>
          simp only [List.get?] at hj
          have := ih (energyStep tz sd).1 (energyStep tz sd).2 false st hst j it hj (Or.inl rfl)
          rw [eStartSeq_shift]
          exact this

theorem energyLoop_skipAll (tz : Tz) (parseTs : String → Int) (api : ApiE) (instI : Int)
    (fuel : Nat) :
    ∀ (sd ed : DT) (st : Store),
      (∀ j : Nat, (∀ i, i ≤ j → instI < (eEndSeq tz sd ed i).instant) →
        stExists st (.energy (monthFloor (eStartSeq tz sd j).naive) false) = true) →
      (energyLoop tz parseTs api instI fuel sd ed false st).store = st ∧
      (∀ it ∈ (energyLoop tz parseTs api instI fuel sd ed false st).trace,
        it.fetched = false) := by
  induction fuel with
  | zero =>
    intro sd ed st H
    by_cases hc : ed.instant ≤ instI
    · rw [energyLoop_stop tz parseTs api instI 0 sd ed false st hc]
      exact ⟨rfl, by simp⟩
    · rw [energyLoop_fuel_out tz parseTs api instI sd ed false st hc]
      exact ⟨rfl, by simp⟩
  | succ fuel ih =>
    intro sd ed st H
    by_cases hc : ed.instant ≤ instI
    · rw [energyLoop_stop tz parseTs api instI _ sd ed false st hc]
      exact ⟨rfl, by simp⟩
    · have hex : stExists st (.energy (monthFloor sd.naive) false) = true := by
        have := H 0 (fun i hi => by
          have hi0 : i = 0 := Nat.le_zero.mp hi
          subst hi0
          exact lt_of_not_le hc)
        simpa [eStartSeq] using this
      have hf' : (false || !stExists st (.energy (monthFloor sd.naive) false)) = false := by
        rw [hex]
        rfl
      rw [energyLoop_skip tz parseTs api instI fuel sd ed false st hc hf']
      have H' : ∀ j : Nat,
          (∀ i, i ≤ j →
            instI < (eEndSeq tz (energyStep tz sd).1 (energyStep tz sd).2 i).instant) →
          stExists st (.energy
            (monthFloor (eStartSeq tz (energyStep tz sd).1 j).naive) false) = true := by
        intro j hj
        have := H (j + 1) (fun i hi => by
          match i, hi with
          | 0, _ => exact lt_of_not_le hc
          | i + 1, hi =>
            rw [← eEndSeq_shift tz sd ed]
            exact hj i (by omega))
        rw [eStartSeq_shift] at this
        exact this
      obtain ⟨hs, ht⟩ := ih (energyStep tz sd).1 (energyStep tz sd).2 st H'
      refine ⟨hs, ?_⟩
      intro it hit
      rcases List.mem_cons.mp hit with rfl | hit'
      · rfl
      · exact ht it hit'

theorem energyLoop_status_ok_iff (tz : Tz) (parseTs : String → Int) (api : ApiE)
    (instI : Int) (hapi : goodApiE api) (fuel : Nat) :
    ∀ (sd ed : DT) (latest : Bool) (st : Store),
      ((energyLoop tz parseTs api instI fuel sd ed latest st).status = .ok ↔
        ∃ k, k ≤ fuel ∧ (eEndSeq tz sd ed k).instant ≤ instI) := by
  induction fuel with
  | zero =>
    intro sd ed latest st
    by_cases hc : ed.instant ≤ instI
    · rw [energyLoop_stop tz parseTs api instI 0 sd ed latest st hc]
      exact iff_of_true rfl ⟨0, le_refl 0, hc⟩
    · rw [energyLoop_fuel_out tz parseTs api instI sd ed latest st hc]
      constructor
      · intro h
        exact absurd h (by simp)
      · rintro ⟨k, hk, hle⟩
        have hk0 : k = 0 := Nat.le_zero.mp hk
        subst hk0
        exact absurd hle hc
  | succ fuel ih =>
    intro sd ed latest st
    by_cases hc : ed.instant ≤ instI
    · rw [energyLoop_stop tz parseTs api instI _ sd ed latest st hc]
      exact iff_of_true rfl ⟨0, Nat.zero_le _, hc⟩
    · have hbridge : ∀ st'' : Store,
          ((energyLoop tz parseTs api instI fuel (energyStep tz sd).1 (energyStep tz sd).2
              false st'').status = .ok) ↔
          (∃ k, k ≤ fuel + 1 ∧ (eEndSeq tz sd ed k).instant ≤ instI) := by
        intro st''
        rw [ih (energyStep tz sd).1 (energyStep tz sd).2 false st'']
        constructor
        · rintro ⟨k, hk, hle⟩
          refine ⟨k + 1, by omega, ?_⟩
          rw [← eEndSeq_shift tz sd ed]
          exact hle
        · rintro ⟨k, hk, hle⟩
          match k, hk, hle with
          | 0, _, hle => exact absurd hle hc
          | k + 1, hk, hle =>
            refine ⟨k, by omega, ?_⟩
            rw [← eEndSeq_shift tz sd ed] at hle
            exact hle
      by_cases hf : (latest || !stExists st (.energy (monthFloor sd.naive) false)) = true
      · obtain ⟨l, h0, hl⟩ := hapi ⟨sd, ed⟩ 0
        have hd := downloadEnergyMonth_ok parseTs api ⟨sd, ed⟩ (monthFloor sd.naive)
          latest st l h0 hl
        rw [energyLoop_fetch_ok tz parseTs api instI fuel sd ed latest st _ _ hc hf hd]
        exact hbridge _
      · have hf' : (latest || !stExists st (.energy (monthFloor sd.naive) false)) = false := by
          simpa using hf
        rw [energyLoop_skip tz parseTs api instI fuel sd ed latest st hc hf']
        exact hbridge st

/-! ### Claim theorems -/

/-- C1: in both download loops, every produced period is fetched exactly when
it is the latest period or no complete artifact exists for its key in the
store seen at that iteration (so the latest period is fetched even when its
partial artifact exists), and a fetched period's write goes to the partial
key exactly when the period is the latest one, else to the complete key. -/
theorem c1_should_fetch (tz : Tz) (parseTs : String → Int) (apiP : ApiP) (apiE : ApiE)
    (instI : Int) (fuel : Nat) (now : DT) (stP stE : Store) :
    (∀ it ∈ (powerRun tz parseTs apiP instI fuel now stP).trace,
      it.fetched = (it.latest ||
        !stExists it.stBefore (.power (floorDay it.date.naive) false)) ∧
      ∀ k a, Ev.wrote k a ∈ it.events → k = .power (floorDay it.date.naive) it.latest) ∧
    (∀ it ∈ (energyRun tz parseTs apiE instI fuel now stE).trace,
      it.fetched = (it.latest ||
        !stExists it.stBefore (.energy (monthFloor it.date.naive) false)) ∧
      ∀ k a, Ev.wrote k a ∈ it.events → k = .energy (monthFloor it.date.naive) it.latest) := by
  constructor
  · intro it hit
    have h := powerLoop_iter_inv tz parseTs apiP instI fuel _ _ _ it hit
    exact ⟨h.2.2.2.1, h.2.2.2.2⟩
  · intro it hit
    have h := energyLoop_iter_inv tz parseTs apiE instI fuel _ _ _ _ it hit
    exact ⟨h.2.2.1, h.2.2.2⟩

/-- C2 counterexample: with a UTC timezone, installation instant 43200
(1970-01-01 12:00) and "now" at 1970-01-03 06:00, the power run ends
normally after producing Jan 3 and Jan 2, while the cursor's next period
(Jan 1, whose end instant 86399 is strictly after the installation instant)
is never produced — the claim "it produces every period whose end_instant is
strictly after the installation_instant" is false for the power loop, which
tests the period start, not the end. -/
theorem c2_counterexample :
    (powerRun tzZero ptsZero apiPw 43200 5 ⟨194400, 0⟩ []).status = RunStatus.ok ∧
    43200 < (localize tzZero
      (floorDay (powerDateSeq tzZero ⟨172800, 0⟩ 2).naive + 86399)).instant ∧
    ∀ it ∈ (powerRun tzZero ptsZero apiPw 43200 5 ⟨194400, 0⟩ []).trace,
      it.date ≠ powerDateSeq tzZero ⟨172800, 0⟩ 2 := by
  exact ⟨by decide, by decide, by decide⟩

/-- C2 amended: the energy loop stops exactly at the first period whose
end_instant is at or before the installation instant (every produced period
has end_instant strictly after it, and the period at the trace's length —
the first unproduced one — has end_instant at or before it), whereas the
power loop stops exactly at the first period whose start-of-day cursor
instant is at or before the installation instant; the power loop may
therefore omit an oldest period whose end_instant is still after the
installation instant. -/
theorem c2_amended (tz : Tz) (parseTs : String → Int) (apiP : ApiP) (apiE : ApiE)
    (instI : Int) (fuel : Nat) (now : DT) (stP stE : Store) :
    c2Power tz parseTs apiP instI fuel now stP ∧ c2Energy tz parseTs apiE instI fuel now stE := by
  constructor
  · intro hok
    refine ⟨?_, powerLoop_len_ok tz parseTs apiP instI fuel _ _ _ hok⟩
    intro j it hj
    have h1 := powerLoop_trace_get? tz parseTs apiP instI fuel _ _ _ j it hj
    have h2 := powerLoop_iter_inv tz parseTs apiP instI fuel _ _ _ it (List.get?_mem hj)
    exact ⟨h1.1, h2.1⟩
  · intro hok
    refine ⟨?_, energyLoop_len_ok tz parseTs apiE instI fuel _ _ _ _ hok⟩
    intro j it hj
    have h1 := energyLoop_trace_get? tz parseTs apiE instI fuel _ _ _ _ j it hj
    have h2 := energyLoop_iter_inv tz parseTs apiE instI fuel _ _ _ _ it (List.get?_mem hj)
    exact ⟨h1.1, h1.2.1, h2.1⟩

/-- C2 amended witness: a concrete fully successful run of both kinds
satisfying the stopping characterizations, with the run-ended-normally
hypotheses discharged by evaluation. -/
theorem c2_amended_witness :
    ((powerRun tzZero ptsZero apiPw 43200 5 ⟨194400, 0⟩ []).status = RunStatus.ok ∧
      (energyRun tzZero ptsZero apiEn 43200 5 ⟨194400, 0⟩ []).status = RunStatus.ok) ∧
    (c2Power tzZero ptsZero apiPw 43200 5 ⟨194400, 0⟩ [] ∧
      c2Energy tzZero ptsZero apiEn 43200 5 ⟨194400, 0⟩ []) := by
  have h := c2_amended tzZero ptsZero apiPw apiEn 43200 5 ⟨194400, 0⟩ [] []
  exact ⟨⟨by decide, by decide⟩, h⟩

/-- C3 counterexample: with a UTC timezone, installation instant 43200
(1970-01-01 12:00) and "now" at 1970-01-03 06:00 (instant 194400), the power
run ends normally, the instant 43200 lies in the half-open interval
[installation, now), yet no produced period contains it — the produced
periods do not tile [I, N): the day overlapping the installation instant is
never produced. -/
theorem c3_counterexample :
    (powerRun tzZero ptsZero apiPw 43200 5 ⟨194400, 0⟩ []).status = RunStatus.ok ∧
    (43200 : Int) ≤ 43200 ∧ (43200 : Int) < DT.instant ⟨194400, 0⟩ ∧
    ∀ it ∈ (powerRun tzZero ptsZero apiPw 43200 5 ⟨194400, 0⟩ []).trace,
      ¬(it.startDt.instant ≤ 43200 ∧ (43200 : Int) ≤ it.endDt.instant) := by
  exact ⟨by decide, by decide, by decide, by decide⟩

/-- C3 amended: under a fixed-offset timezone, after a fully successful power
run whose installation instant precedes today's local midnight, the produced
periods are contiguous and pairwise disjoint and exactly tile [S, N) where
S is the start instant of the oldest produced period; S lies strictly above
the installation instant and at most one day after it (instants in
[installation, S) are not covered), and exactly the first produced period is
the partial one. -/
theorem c3_amended (c : Int) (parseTs : String → Int) (api : ApiP) (instI : Int)
    (fuel : Nat) (nowNaive : Int) (st : Store)
    (hok : (powerRun (fun _ => c) parseTs api instI fuel ⟨nowNaive, c⟩ st).status
      = RunStatus.ok)
    (hinst : instI < floorDay nowNaive - c) :
    c3Concl c parseTs api instI fuel nowNaive st := by
  have hlen' : floorDay nowNaive - c -
      86400 * ((powerRun (fun _ => c) parseTs api instI fuel ⟨nowNaive, c⟩ st).trace.length : Int)
      ≤ instI := by
    have hlen := powerLoop_len_ok (fun _ => c) parseTs api instI fuel
      ⟨floorDay nowNaive, c⟩ true st hok
    have heq := powerDateSeq_instant_const c nowNaive
      ((powerRun (fun _ => c) parseTs api instI fuel ⟨nowNaive, c⟩ st).trace.length)
    rw [← heq]
    exact hlen
  have hK1 : 1 ≤ (powerRun (fun _ => c) parseTs api instI fuel ⟨nowNaive, c⟩ st).trace.length := by
    by_contra hcon
    have h0 : ((powerRun (fun _ => c) parseTs api instI fuel
        ⟨nowNaive, c⟩ st).trace.length : Int) = 0 := by
      omega
    rw [h0] at hlen'
    omega
  have hformula : ∀ (j : Nat) (it : Iter),
      (powerRun (fun _ => c) parseTs api instI fuel ⟨nowNaive, c⟩ st).trace.get? j = some it →
      it.startDt.instant = floorDay nowNaive - c - 86400 * j ∧
      it.endDt.instant = floorDay nowNaive - c - 86400 * j + 86399 := by
    intro j it hj
    have h1 := powerLoop_trace_get? (fun _ => c) parseTs api instI fuel
      ⟨floorDay nowNaive, c⟩ true st j it hj
    have h2 := powerLoop_iter_inv (fun _ => c) parseTs api instI fuel
      ⟨floorDay nowNaive, c⟩ true st it (List.get?_mem hj)
    have hfd : floorDay ((powerDateSeq (fun _ => c) ⟨floorDay nowNaive, c⟩ j).naive)
        = floorDay nowNaive - 86400 * j := by
      rw [powerDateSeq_naive]
      show floorDay (floorDay nowNaive - 86400 * (j : Nat)) = _
      rw [floorDay_sub_mul, floorDay_idem]
    constructor
    · rw [h2.2.1, h1.1, hfd]
      show floorDay nowNaive - 86400 * (j : Int) - c = _
      ring
    · rw [h2.2.2.1, h1.1, hfd]
      show floorDay nowNaive - 86400 * (j : Int) + 86399 - c = _
      ring
  refine ⟨hK1, ?_, by omega, ?_, ?_⟩
  · -- instI < S: the oldest produced period's start instant is above instI
    have hK1' : (powerRun (fun _ => c) parseTs api instI fuel ⟨nowNaive, c⟩ st).trace.length - 1
        < (powerRun (fun _ => c) parseTs api instI fuel ⟨nowNaive, c⟩ st).trace.length := by
      omega
    have hget := List.get?_eq_get hK1'
    have h1 := powerLoop_trace_get? (fun _ => c) parseTs api instI fuel
      ⟨floorDay nowNaive, c⟩ true st _ _ hget
    have h2 := powerLoop_iter_inv (fun _ => c) parseTs api instI fuel
      ⟨floorDay nowNaive, c⟩ true st _ (List.get?_mem hget)
    have hda := h2.1
    rw [h1.1, powerDateSeq_instant_const] at hda
    have hcast : (((powerRun (fun _ => c) parseTs api instI fuel ⟨nowNaive, c⟩ st).trace.length
        - 1 : Nat) : Int)
        = ((powerRun (fun _ => c) parseTs api instI fuel ⟨nowNaive, c⟩ st).trace.length : Int)
          - 1 := by
      omega
    rw [hcast] at hda
    omega
  · -- tiling
    intro t ht1 ht2
    have hnowlt : nowNaive < floorDay nowNaive + 86400 := lt_floorDay_add nowNaive
    have hu0 : 0 ≤ floorDay nowNaive - c + 86399 - t := by omega
    have hq0 : 0 ≤ (floorDay nowNaive - c + 86399 - t) / 86400 := by omega
    have hqK : (floorDay nowNaive - c + 86399 - t) / 86400
        < ((powerRun (fun _ => c) parseTs api instI fuel ⟨nowNaive, c⟩ st).trace.length : Int) := by
      omega
    have hjn : ((Int.toNat ((floorDay nowNaive - c + 86399 - t) / 86400) : Nat) : Int)
        = (floorDay nowNaive - c + 86399 - t) / 86400 := Int.toNat_of_nonneg hq0
    have hjnK : Int.toNat ((floorDay nowNaive - c + 86399 - t) / 86400)
        < (powerRun (fun _ => c) parseTs api instI fuel ⟨nowNaive, c⟩ st).trace.length := by
      omega
    have hget := List.get?_eq_get hjnK
    have hbounds := hformula _ _ hget
    refine ⟨Int.toNat ((floorDay nowNaive - c + 86399 - t) / 86400),
      ⟨_, hget, ?_, ?_⟩, ?_⟩
    · rw [hbounds.1, hjn]
      omega
    · rw [hbounds.2, hjn]
      omega
    · rintro j' ⟨it', hj', hb1, hb2⟩
      have hf' := hformula j' it' hj'
      rw [hf'.1] at hb1
      rw [hf'.2] at hb2
      omega
  · -- exactly the first trace entry is the partial one
    intro j it hj
    have h1 := powerLoop_trace_get? (fun _ => c) parseTs api instI fuel
      ⟨floorDay nowNaive, c⟩ true st j it hj
    rw [h1.2]
    constructor
    · intro hl
      have : (j == 0) = true := by simpa using hl
      simpa using this
    · intro hj0
      subst hj0
      rfl

/-- C3 amended witness: the concrete successful run of `c3_counterexample`
satisfies the amended tiling statement; both hypotheses are discharged by
evaluation. -/
theorem c3_amended_witness :
    ((powerRun (fun _ => (0 : Int)) ptsZero apiPw 43200 5 ⟨194400, 0⟩ []).status
        = RunStatus.ok ∧
      (43200 : Int) < floorDay 194400 - 0) ∧
    c3Concl 0 ptsZero apiPw 43200 5 194400 [] := by
  refine ⟨⟨?_, by decide⟩, c3_amended 0 ptsZero apiPw 43200 5 194400 [] ?_ (by decide)⟩
  · show (powerRun tzZero ptsZero apiPw 43200 5 ⟨194400, 0⟩ []).status = RunStatus.ok
    decide
  · show (powerRun tzZero ptsZero apiPw 43200 5 ⟨194400, 0⟩ []).status = RunStatus.ok
    decide

theorem powerSession_idem (tz : Tz) (parseTs : String → Int) (api : ApiP) (instI : Int)
    (fuel : Nat) (now : DT) (st0 : Store) (hP : goodApiP api) :
    c4Power tz parseTs api instI fuel now st0 := by
  intro hok
  have hok' : (powerLoop tz parseTs api instI fuel ⟨floorDay now.naive, now.off⟩ true
      (delPartPower st0)).status = RunStatus.ok := hok
  have hst2 : (powerSession tz parseTs api instI fuel now
      (powerSession tz parseTs api instI fuel now st0).store).status = RunStatus.ok :=
    (powerLoop_status_ok_iff tz parseTs api instI hP fuel
      ⟨floorDay now.naive, now.off⟩ true
      (delPartPower (powerSession tz parseTs api instI fuel now st0).store)).mpr
    ((powerLoop_status_ok_iff tz parseTs api instI hP fuel
      ⟨floorDay now.naive, now.off⟩ true (delPartPower st0)).mp hok')
  by_cases hc : DT.instant ⟨floorDay now.naive, now.off⟩ ≤ instI
  · have ho2 : powerSession tz parseTs api instI fuel now
        (powerSession tz parseTs api instI fuel now st0).store
        = ⟨.ok, delPartPower (powerSession tz parseTs api instI fuel now st0).store, []⟩ :=
      powerLoop_stop tz parseTs api instI fuel ⟨floorDay now.naive, now.off⟩ true _ hc
    refine ⟨hst2, ?_, ?_, ?_⟩
    · intro j it hj hj1
      rw [ho2] at hj
      exact absurd hj (by simp)
    · intro it hj
      rw [ho2] at hj
      exact absurd hj (by simp)
    · intro day
      rw [ho2]
      exact stGet_delPartPower_complete _ day
  · cases fuel with
    | zero =>
      have h0 : powerSession tz parseTs api instI 0 now st0
          = ⟨.fuelOut, delPartPower st0, []⟩ :=
        powerLoop_fuel_out tz parseTs api instI ⟨floorDay now.naive, now.off⟩ true _ hc
      rw [h0] at hok
      exact absurd hok (by simp)
    | succ fuel =>
      have hok1 : (powerLoop tz parseTs api instI (fuel + 1) ⟨floorDay now.naive, now.off⟩
          true (delPartPower st0)).status = RunStatus.ok := hok
      obtain ⟨l, h0l, hl⟩ := hP (powerReq tz ⟨floorDay now.naive, now.off⟩) 0
      have hd := downloadPowerDay_ok parseTs api (powerReq tz ⟨floorDay now.naive, now.off⟩)
        (floorDay (floorDay now.naive)) true
        (delPartPower (powerSession tz parseTs api instI (fuel + 1) now st0).store) l h0l hl
      have hrw := powerLoop_fetch_ok tz parseTs api instI fuel ⟨floorDay now.naive, now.off⟩
        true (delPartPower (powerSession tz parseTs api instI (fuel + 1) now st0).store)
        _ _ hc (by rfl) hd
      have hH : ∀ j : Nat,
          (∀ i, i ≤ j → instI <
            (powerDateSeq tz (localize tz (floorDay now.naive - 86400)) i).instant) →
          stExists
            (stSet (delPartPower (powerSession tz parseTs api instI (fuel + 1) now st0).store)
              (.power (floorDay (floorDay now.naive)) true)
              (.power (l.map (transformPower parseTs))))
            (.power (floorDay (powerDateSeq tz
              (localize tz (floorDay now.naive - 86400)) j).naive) false) = true := by
        intro j hj
        rw [powerDateSeq_step tz (floorDay now.naive) now.off j]
        have hall : ∀ i, i ≤ j + 1 →
            instI < (powerDateSeq tz ⟨floorDay now.naive, now.off⟩ i).instant := by
          intro i hi
          match i, hi with
          | 0, _ => exact lt_of_not_le hc
          | i + 1, hi =>
            rw [← powerDateSeq_step tz (floorDay now.naive) now.off i]
            exact hj i (by omega)
        have hlenle := powerLoop_len_ok tz parseTs api instI (fuel + 1)
          ⟨floorDay now.naive, now.off⟩ true (delPartPower st0) hok1
        have hjlt : j + 1
            < (powerSession tz parseTs api instI (fuel + 1) now st0).trace.length := by
          by_contra hcon
          push_neg at hcon
          exact absurd hlenle (not_le.mpr (hall _ hcon))
        have hget := List.get?_eq_get hjlt
        have hcomp := powerLoop_complete_after tz parseTs api instI (fuel + 1)
          ⟨floorDay now.naive, now.off⟩ true (delPartPower st0) hok1 (j + 1) _ hget
          (Or.inr (by omega))
        rw [stExists_stSet]
        have hdel : stExists
            (delPartPower (powerSession tz parseTs api instI (fuel + 1) now st0).store)
            (.power (floorDay (powerDateSeq tz ⟨floorDay now.naive, now.off⟩ (j + 1)).naive)
              false) = true := by
          rw [stExists_delPartPower_complete]
          exact hcomp
        rw [hdel]
        simp
      have hskip := powerLoop_skipAll tz parseTs api instI fuel
        (localize tz (floorDay now.naive - 86400))
        (stSet (delPartPower (powerSession tz parseTs api instI (fuel + 1) now st0).store)
          (.power (floorDay (floorDay now.naive)) true)
          (.power (l.map (transformPower parseTs)))) hH
      refine ⟨hst2, ?_, ?_, ?_⟩
      · intro j it hj hj1
        have hj' : (powerLoop tz parseTs api instI (fuel + 1) ⟨floorDay now.naive, now.off⟩
            true (delPartPower (powerSession tz parseTs api instI (fuel + 1) now
              st0).store)).trace.get? j = some it := hj
        rw [hrw] at hj'
        match j, hj1, hj' with
        | j + 1, _, hj' =>
          dsimp only at hj'
          simp only [List.get?] at hj'
          exact hskip.2 it (List.get?_mem hj')
      · intro it hj
        have hj' : (powerLoop tz parseTs api instI (fuel + 1) ⟨floorDay now.naive, now.off⟩
            true (delPartPower (powerSession tz parseTs api instI (fuel + 1) now
              st0).store)).trace.get? 0 = some it := hj
        rw [hrw] at hj'
        dsimp only at hj'
        simp only [List.get?] at hj'
        injection hj' with hj'
        subst hj'
        exact ⟨rfl, rfl⟩
      · intro day
        show stGet (powerLoop tz parseTs api instI (fuel + 1) ⟨floorDay now.naive, now.off⟩
            true (delPartPower (powerSession tz parseTs api instI (fuel + 1) now
              st0).store)).store (.power day false)
          = stGet (powerSession tz parseTs api instI (fuel + 1) now st0).store
              (.power day false)
        rw [hrw]
        dsimp only
        rw [hskip.1]
        rw [stGet_stSet_ne _ _ (by
          intro hh
          injection hh with h1 h2
          simp at h2)]
        exact stGet_delPartPower_complete _ day

theorem energySession_idem (tz : Tz) (parseTs : String → Int) (api : ApiE) (instI : Int)
    (fuel : Nat) (now : DT) (st0 : Store) (hE : goodApiE api) :
    c4Energy tz parseTs api instI fuel now st0 := by
  intro hok
  have hok' : (energyLoop tz parseTs api instI fuel
      ((DT.mk (floorDay now.naive) now.off).subSec
        (86400 * (dayOfMonth (floorDay now.naive) - 1)))
      ⟨floorDay now.naive + 86399, now.off⟩ true (delPartEnergy st0)).status
      = RunStatus.ok := hok
  have hst2 : (energySession tz parseTs api instI fuel now
      (energySession tz parseTs api instI fuel now st0).store).status = RunStatus.ok :=
    (energyLoop_status_ok_iff tz parseTs api instI hE fuel
      ((DT.mk (floorDay now.naive) now.off).subSec
        (86400 * (dayOfMonth (floorDay now.naive) - 1)))
      ⟨floorDay now.naive + 86399, now.off⟩ true
      (delPartEnergy (energySession tz parseTs api instI fuel now st0).store)).mpr
    ((energyLoop_status_ok_iff tz parseTs api instI hE fuel
      ((DT.mk (floorDay now.naive) now.off).subSec
        (86400 * (dayOfMonth (floorDay now.naive) - 1)))
      ⟨floorDay now.naive + 86399, now.off⟩ true (delPartEnergy st0)).mp hok')
  by_cases hc : DT.instant ⟨floorDay now.naive + 86399, now.off⟩ ≤ instI
  · have ho2 : energySession tz parseTs api instI fuel now
        (energySession tz parseTs api instI fuel now st0).store
        = ⟨.ok, delPartEnergy (energySession tz parseTs api instI fuel now st0).store, []⟩ :=
      energyLoop_stop tz parseTs api instI fuel
        ((DT.mk (floorDay now.naive) now.off).subSec
          (86400 * (dayOfMonth (floorDay now.naive) - 1)))
        ⟨floorDay now.naive + 86399, now.off⟩ true _ hc
    refine ⟨hst2, ?_, ?_, ?_⟩
    · intro j it hj hj1
      rw [ho2] at hj
      exact absurd hj (by simp)
    · intro it hj
      rw [ho2] at hj
      exact absurd hj (by simp)
    · intro month
      rw [ho2]
      exact stGet_delPartEnergy_complete _ month
  · cases fuel with
    | zero =>
      have h0 : energySession tz parseTs api instI 0 now st0
          = ⟨.fuelOut, delPartEnergy st0, []⟩ :=
        energyLoop_fuel_out tz parseTs api instI
          ((DT.mk (floorDay now.naive) now.off).subSec
            (86400 * (dayOfMonth (floorDay now.naive) - 1)))
          ⟨floorDay now.naive + 86399, now.off⟩ true _ hc
      rw [h0] at hok
      exact absurd hok (by simp)
    | succ fuel =>
      have hok1 : (energyLoop tz parseTs api instI (fuel + 1)
          ((DT.mk (floorDay now.naive) now.off).subSec
            (86400 * (dayOfMonth (floorDay now.naive) - 1)))
          ⟨floorDay now.naive + 86399, now.off⟩ true (delPartEnergy st0)).status
          = RunStatus.ok := hok
      obtain ⟨l, h0l, hl⟩ := hE ⟨(DT.mk (floorDay now.naive) now.off).subSec
        (86400 * (dayOfMonth (floorDay now.naive) - 1)),
        ⟨floorDay now.naive + 86399, now.off⟩⟩ 0
      have hd := downloadEnergyMonth_ok parseTs api
        ⟨(DT.mk (floorDay now.naive) now.off).subSec
          (86400 * (dayOfMonth (floorDay now.naive) - 1)),
          ⟨floorDay now.naive + 86399, now.off⟩⟩
        (monthFloor ((DT.mk (floorDay now.naive) now.off).subSec
          (86400 * (dayOfMonth (floorDay now.naive) - 1))).naive) true
        (delPartEnergy (energySession tz parseTs api instI (fuel + 1) now st0).store) l h0l hl
      have hrw := energyLoop_fetch_ok tz parseTs api instI fuel
        ((DT.mk (floorDay now.naive) now.off).subSec
          (86400 * (dayOfMonth (floorDay now.naive) - 1)))
        ⟨floorDay now.naive + 86399, now.off⟩ true
        (delPartEnergy (energySession tz parseTs api instI (fuel + 1) now st0).store)
        _ _ hc (by rfl) hd
      have hH : ∀ j : Nat,
          (∀ i, i ≤ j → instI <
            (eEndSeq tz
              (energyStep tz ((DT.mk (floorDay now.naive) now.off).subSec
                (86400 * (dayOfMonth (floorDay now.naive) - 1)))).1
              (energyStep tz ((DT.mk (floorDay now.naive) now.off).subSec
                (86400 * (dayOfMonth (floorDay now.naive) - 1)))).2 i).instant) →
          stExists
            (stSet (delPartEnergy
                (energySession tz parseTs api instI (fuel + 1) now st0).store)
              (.energy (monthFloor ((DT.mk (floorDay now.naive) now.off).subSec
                (86400 * (dayOfMonth (floorDay now.naive) - 1))).naive) true)
              (.energy (l.map (transformEnergy parseTs))))
            (.energy (monthFloor (eStartSeq tz
              (energyStep tz ((DT.mk (floorDay now.naive) now.off).subSec
                (86400 * (dayOfMonth (floorDay now.naive) - 1)))).1 j).naive) false)
            = true := by
        intro j hj
        rw [eStartSeq_step]
        have hall : ∀ i, i ≤ j + 1 →
            instI < (eEndSeq tz
              ((DT.mk (floorDay now.naive) now.off).subSec
                (86400 * (dayOfMonth (floorDay now.naive) - 1)))
              ⟨floorDay now.naive + 86399, now.off⟩ i).instant := by
          intro i hi
          match i, hi with
          | 0, _ => exact lt_of_not_le hc
          | i + 1, hi =>
            rw [← eEndSeq_shift tz
              ((DT.mk (floorDay now.naive) now.off).subSec
                (86400 * (dayOfMonth (floorDay now.naive) - 1)))
              ⟨floorDay now.naive + 86399, now.off⟩ i]
            exact hj i (by omega)
        have hlenle := energyLoop_len_ok tz parseTs api instI (fuel + 1)
          ((DT.mk (floorDay now.naive) now.off).subSec
            (86400 * (dayOfMonth (floorDay now.naive) - 1)))
          ⟨floorDay now.naive + 86399, now.off⟩ true (delPartEnergy st0) hok1
        have hjlt : j + 1
            < (energySession tz parseTs api instI (fuel + 1) now st0).trace.length := by
          by_contra hcon
          push_neg at hcon
          exact absurd hlenle (not_le.mpr (hall _ hcon))
        have hget := List.get?_eq_get hjlt
        have hcomp := energyLoop_complete_after tz parseTs api instI (fuel + 1)
          ((DT.mk (floorDay now.naive) now.off).subSec
            (86400 * (dayOfMonth (floorDay now.naive) - 1)))
          ⟨floorDay now.naive + 86399, now.off⟩ true (delPartEnergy st0) hok1 (j + 1) _ hget
          (Or.inr (by omega))
        rw [stExists_stSet]
        have hdel : stExists
            (delPartEnergy (energySession tz parseTs api instI (fuel + 1) now st0).store)
            (.energy (monthFloor (eStartSeq tz
              ((DT.mk (floorDay now.naive) now.off).subSec
                (86400 * (dayOfMonth (floorDay now.naive) - 1))) (j + 1)).naive) false)
            = true := by
          rw [stExists_delPartEnergy_complete]
          exact hcomp
        rw [hdel]
        simp
      have hskip := energyLoop_skipAll tz parseTs api instI fuel
        (energyStep tz ((DT.mk (floorDay now.naive) now.off).subSec
          (86400 * (dayOfMonth (floorDay now.naive) - 1)))).1
        (energyStep tz ((DT.mk (floorDay now.naive) now.off).subSec
          (86400 * (dayOfMonth (floorDay now.naive) - 1)))).2
        (stSet (delPartEnergy (energySession tz parseTs api instI (fuel + 1) now st0).store)
          (.energy (monthFloor ((DT.mk (floorDay now.naive) now.off).subSec
            (86400 * (dayOfMonth (floorDay now.naive) - 1))).naive) true)
          (.energy (l.map (transformEnergy parseTs)))) hH
      refine ⟨hst2, ?_, ?_, ?_⟩
      · intro j it hj hj1
        have hj' : (energyLoop tz parseTs api instI (fuel + 1)
            ((DT.mk (floorDay now.naive) now.off).subSec
              (86400 * (dayOfMonth (floorDay now.naive) - 1)))
            ⟨floorDay now.naive + 86399, now.off⟩ true
            (delPartEnergy (energySession tz parseTs api instI (fuel + 1) now
              st0).store)).trace.get? j = some it := hj
        rw [hrw] at hj'
        match j, hj1, hj' with
        | j + 1, _, hj' =>
          dsimp only at hj'
          simp only [List.get?] at hj'
          exact hskip.2 it (List.get?_mem hj')
      · intro it hj
        have hj' : (energyLoop tz parseTs api instI (fuel + 1)
            ((DT.mk (floorDay now.naive) now.off).subSec
              (86400 * (dayOfMonth (floorDay now.naive) - 1)))
            ⟨floorDay now.naive + 86399, now.off⟩ true
            (delPartEnergy (energySession tz parseTs api instI (fuel + 1) now
              st0).store)).trace.get? 0 = some it := hj
        rw [hrw] at hj'
        dsimp only at hj'
        simp only [List.get?] at hj'
        injection hj' with hj'
        subst hj'
        exact ⟨rfl, rfl⟩
      · intro month
        show stGet (energyLoop tz parseTs api instI (fuel + 1)
            ((DT.mk (floorDay now.naive) now.off).subSec
              (86400 * (dayOfMonth (floorDay now.naive) - 1)))
            ⟨floorDay now.naive + 86399, now.off⟩ true
            (delPartEnergy (energySession tz parseTs api instI (fuel + 1) now
              st0).store)).store (.energy month false)
          = stGet (energySession tz parseTs api instI (fuel + 1) now st0).store
              (.energy month false)
        rw [hrw]
        dsimp only
        rw [hskip.1]
        rw [stGet_stSet_ne _ _ (by
          intro hh
          injection hh with h1 h2
          simp at h2)]
        exact stGet_delPartEnergy_complete _ month

/-- C4: for both kinds, with unchanged remote data (the same always-succeeding
oracle) and unchanged "now", running the delete-partials-then-download session
twice in succession gives: the second session also ends normally, fetches only
its first (latest) period and skips every period whose complete artifact
already exists, and every complete artifact after the second session is
byte-identical to the one left by the first session. -/
theorem c4_idempotent (tz : Tz) (parseTs : String → Int) (apiP : ApiP) (apiE : ApiE)
    (instI : Int) (fuel : Nat) (now : DT) (stP stE : Store)
    (hP : goodApiP apiP) (hE : goodApiE apiE) :
    c4Power tz parseTs apiP instI fuel now stP ∧ c4Energy tz parseTs apiE instI fuel now stE :=
  ⟨powerSession_idem tz parseTs apiP instI fuel now stP hP,
    energySession_idem tz parseTs apiE instI fuel now stE hE⟩

/-- C4 witness: concrete double sessions of both kinds, with the oracle
hypotheses discharged explicitly and the first-session-succeeded hypotheses
inside `c4Power`/`c4Energy` decidably true. -/
theorem c4_idempotent_witness :
    goodApiP apiPw ∧ goodApiE apiEn ∧
    (powerSession tzZero ptsZero apiPw 43200 5 ⟨194400, 0⟩ []).status = RunStatus.ok ∧
    (energySession tzZero ptsZero apiEn 43200 5 ⟨194400, 0⟩ []).status = RunStatus.ok ∧
    (c4Power tzZero ptsZero apiPw 43200 5 ⟨194400, 0⟩ [] ∧
      c4Energy tzZero ptsZero apiEn 43200 5 ⟨194400, 0⟩ []) := by
  have hgP : goodApiP apiPw := fun r n => ⟨[samplePw], rfl, by simp⟩
  have hgE : goodApiE apiEn := fun r n => ⟨[sampleEn], rfl, by simp⟩
  exact ⟨hgP, hgE, by decide, by decide,
    c4_idempotent tzZero ptsZero apiPw apiEn 43200 5 ⟨194400, 0⟩ [] [] hgP hgE⟩

/-- C5: deleting partial files removes every partial artifact of that kind
unconditionally (both kinds), and — partial supersession — if a period at
cursor index `j ≥ 1` (so no longer the latest) of either kind had a partial
artifact in the pre-run store and the session of its kind (delete partials,
then run) ends normally having produced it, then afterwards a complete
artifact for that day (power) or month (energy) exists and no partial
artifact for it remains. -/
theorem c5_delete_partials (tz : Tz) (parseTs : String → Int) (api : ApiP) (instI : Int)
    (fuel : Nat) (now : DT) (st0 : Store) (j : Nat)
    (apiE2 : ApiE) (instIE : Int) (fuelE : Nat) (nowE : DT) (stE0 : Store) (jE : Nat)
    (hok : (powerSession tz parseTs api instI fuel now st0).status = RunStatus.ok)
    (hj1 : 1 ≤ j)
    (hlt : j < (powerSession tz parseTs api instI fuel now st0).trace.length)
    (hhad : stExists st0
      (.power (floorDay (powerDateSeq tz ⟨floorDay now.naive, now.off⟩ j).naive) true)
      = true)
    (hokE : (energySession tz parseTs apiE2 instIE fuelE nowE stE0).status = RunStatus.ok)
    (hjE1 : 1 ≤ jE)
    (hltE : jE < (energySession tz parseTs apiE2 instIE fuelE nowE stE0).trace.length)
    (hhadE : stExists stE0
      (.energy (monthFloor (eStartSeq tz
        (DT.subSec ⟨floorDay nowE.naive, nowE.off⟩
          (86400 * (dayOfMonth (floorDay nowE.naive) - 1))) jE).naive) true)
      = true) :
    (∀ (st : Store) (x : Int),
      stExists (delPartPower st) (.power x true) = false ∧
      stExists (delPartEnergy st) (.energy x true) = false) ∧
    c5Concl tz parseTs api instI fuel now st0 j ∧
    c5ConclE tz parseTs apiE2 instIE fuelE nowE stE0 jE := by
  have hget := List.get?_eq_get hlt
  have hgetE := List.get?_eq_get hltE
  refine ⟨fun st x => ⟨delPartPower_power_true st x, delPartEnergy_energy_true st x⟩,
    ⟨?_, ?_⟩, ⟨?_, ?_⟩⟩
  · -- complete artifact for the day exists after the session
    exact powerLoop_complete_after tz parseTs api instI fuel
      ⟨floorDay now.naive, now.off⟩ true (delPartPower st0) hok j _ hget (Or.inr hj1)
  · -- no partial artifact for the day remains
    have hc : ¬ DT.instant ⟨floorDay now.naive, now.off⟩ ≤ instI := by
      intro hc
      have ho : powerSession tz parseTs api instI fuel now st0
          = ⟨.ok, delPartPower st0, []⟩ :=
        powerLoop_stop tz parseTs api instI fuel ⟨floorDay now.naive, now.off⟩ true _ hc
      rw [ho] at hlt
      exact absurd hlt (by simp)
    cases fuel with
    | zero =>
      have h0 : powerSession tz parseTs api instI 0 now st0
          = ⟨.fuelOut, delPartPower st0, []⟩ :=
        powerLoop_fuel_out tz parseTs api instI ⟨floorDay now.naive, now.off⟩ true _ hc
      rw [h0] at hlt
      exact absurd hlt (by simp)
    | succ fuel =>
      rcases hd : downloadPowerDay parseTs api (powerReq tz ⟨floorDay now.naive, now.off⟩)
          (floorDay (DT.naive ⟨floorDay now.naive, now.off⟩)) true (delPartPower st0)
        with ⟨res, evs⟩
      rcases res with e | st'
      · have ho : powerSession tz parseTs api instI (fuel + 1) now st0
            = ⟨.raised e, delPartPower st0,
                [⟨⟨floorDay now.naive, now.off⟩,
                  (powerReq tz ⟨floorDay now.naive, now.off⟩).startDt,
                  (powerReq tz ⟨floorDay now.naive, now.off⟩).endDt, true,
                  delPartPower st0, true, evs⟩]⟩ :=
          powerLoop_fetch_err tz parseTs api instI fuel ⟨floorDay now.naive, now.off⟩
            true (delPartPower st0) e evs hc (by rfl) hd
        rw [ho] at hok
        exact absurd hok (by simp)
      · have ho : powerSession tz parseTs api instI (fuel + 1) now st0
            = ⟨(powerLoop tz parseTs api instI fuel
                  (localize tz (DT.naive ⟨floorDay now.naive, now.off⟩ - 86400)) false
                  st').status,
                (powerLoop tz parseTs api instI fuel
                  (localize tz (DT.naive ⟨floorDay now.naive, now.off⟩ - 86400)) false
                  st').store,
                ⟨⟨floorDay now.naive, now.off⟩,
                  (powerReq tz ⟨floorDay now.naive, now.off⟩).startDt,
                  (powerReq tz ⟨floorDay now.naive, now.off⟩).endDt, true,
                  delPartPower st0, true, evs ++ [.sleepEv 1]⟩ ::
                  (powerLoop tz parseTs api instI fuel
                    (localize tz (DT.naive ⟨floorDay now.naive, now.off⟩ - 86400)) false
                    st').trace⟩ :=
          powerLoop_fetch_ok tz parseTs api instI fuel ⟨floorDay now.naive, now.off⟩
            true (delPartPower st0) st' evs hc (by rfl) hd
        show stGet (powerSession tz parseTs api instI (fuel + 1) now st0).store
          (.power (floorDay (powerDateSeq tz ⟨floorDay now.naive, now.off⟩ j).naive) true)
          = none
        rw [ho]
        dsimp only
        rw [powerLoop_partial_get]
        obtain ⟨a0, ha0, _⟩ := downloadPowerDay_ok_shape _ _ _ _ _ _ _ _ hd
        rw [ha0, stGet_stSet_ne]
        · have hdel := delPartPower_power_true st0
            (floorDay (powerDateSeq tz ⟨floorDay now.naive, now.off⟩ j).naive)
          rw [stExists_eq_isSome_stGet] at hdel
          rcases hval : stGet (delPartPower st0)
              (.power (floorDay (powerDateSeq tz ⟨floorDay now.naive, now.off⟩ j).naive) true)
            with _ | v
          · rfl
          · rw [hval] at hdel
            simp at hdel
        · intro hh
          injection hh with h1 h2
          rw [powerDateSeq_naive] at h1
          have hfd : floorDay (DT.naive ⟨floorDay now.naive, now.off⟩ - 86400 * (j : Nat))
              = floorDay now.naive - 86400 * (j : Nat) := by
            show floorDay (floorDay now.naive - 86400 * (j : Nat)) = _
            rw [floorDay_sub_mul, floorDay_idem]
          rw [hfd] at h1
          have hj0 : (j : Int) ≠ 0 := by
            simp only [ne_eq, Int.natCast_eq_zero]
            omega
          have : floorDay (DT.naive ⟨floorDay now.naive, now.off⟩) = floorDay now.naive := by
            show floorDay (floorDay now.naive) = floorDay now.naive
            exact floorDay_idem now.naive
          rw [this] at h1
          omega
  · -- complete energy artifact for the month exists after the session
    exact energyLoop_complete_after tz parseTs apiE2 instIE fuelE
      (DT.subSec ⟨floorDay nowE.naive, nowE.off⟩
        (86400 * (dayOfMonth (floorDay nowE.naive) - 1)))
      ⟨floorDay nowE.naive + 86399, nowE.off⟩ true (delPartEnergy stE0) hokE jE _ hgetE
      (Or.inr hjE1)
  · -- no partial energy artifact for the month remains
    have hcE : ¬ DT.instant ⟨floorDay nowE.naive + 86399, nowE.off⟩ ≤ instIE := by
      intro hc
      have ho : energySession tz parseTs apiE2 instIE fuelE nowE stE0
          = ⟨.ok, delPartEnergy stE0, []⟩ :=
        energyLoop_stop tz parseTs apiE2 instIE fuelE
          (DT.subSec ⟨floorDay nowE.naive, nowE.off⟩
            (86400 * (dayOfMonth (floorDay nowE.naive) - 1)))
          ⟨floorDay nowE.naive + 86399, nowE.off⟩ true (delPartEnergy stE0) hc
      rw [ho] at hltE
      exact absurd hltE (by simp)
    cases fuelE with
    | zero =>
      have h0 : energySession tz parseTs apiE2 instIE 0 nowE stE0
          = ⟨.fuelOut, delPartEnergy stE0, []⟩ :=
        energyLoop_fuel_out tz parseTs apiE2 instIE
          (DT.subSec ⟨floorDay nowE.naive, nowE.off⟩
            (86400 * (dayOfMonth (floorDay nowE.naive) - 1)))
          ⟨floorDay nowE.naive + 86399, nowE.off⟩ true (delPartEnergy stE0) hcE
      rw [h0] at hltE
      exact absurd hltE (by simp)
    | succ fuelE =>
      rcases hd : downloadEnergyMonth parseTs apiE2
          ⟨DT.subSec ⟨floorDay nowE.naive, nowE.off⟩
            (86400 * (dayOfMonth (floorDay nowE.naive) - 1)),
            ⟨floorDay nowE.naive + 86399, nowE.off⟩⟩
          (monthFloor (DT.subSec ⟨floorDay nowE.naive, nowE.off⟩
            (86400 * (dayOfMonth (floorDay nowE.naive) - 1))).naive)
          true (delPartEnergy stE0)
        with ⟨res, evs⟩
      rcases res with e | st'
      · have ho : energySession tz parseTs apiE2 instIE (fuelE + 1) nowE stE0
            = ⟨.raised e, delPartEnergy stE0,
                [⟨DT.subSec ⟨floorDay nowE.naive, nowE.off⟩
                    (86400 * (dayOfMonth (floorDay nowE.naive) - 1)),
                  DT.subSec ⟨floorDay nowE.naive, nowE.off⟩
                    (86400 * (dayOfMonth (floorDay nowE.naive) - 1)),
                  ⟨floorDay nowE.naive + 86399, nowE.off⟩, true,
                  delPartEnergy stE0, true, evs⟩]⟩ :=
          energyLoop_fetch_err tz parseTs apiE2 instIE fuelE
            (DT.subSec ⟨floorDay nowE.naive, nowE.off⟩
              (86400 * (dayOfMonth (floorDay nowE.naive) - 1)))
            ⟨floorDay nowE.naive + 86399, nowE.off⟩ true (delPartEnergy stE0) e evs
            hcE (by rfl) hd
        rw [ho] at hokE
        exact absurd hokE (by simp)
      · have ho : energySession tz parseTs apiE2 instIE (fuelE + 1) nowE stE0
            = ⟨(energyLoop tz parseTs apiE2 instIE fuelE
                  (energyStep tz (DT.subSec ⟨floorDay nowE.naive, nowE.off⟩
                    (86400 * (dayOfMonth (floorDay nowE.naive) - 1)))).1
                  (energyStep tz (DT.subSec ⟨floorDay nowE.naive, nowE.off⟩
                    (86400 * (dayOfMonth (floorDay nowE.naive) - 1)))).2
                  false st').status,
                (energyLoop tz parseTs apiE2 instIE fuelE
                  (energyStep tz (DT.subSec ⟨floorDay nowE.naive, nowE.off⟩
                    (86400 * (dayOfMonth (floorDay nowE.naive) - 1)))).1
                  (energyStep tz (DT.subSec ⟨floorDay nowE.naive, nowE.off⟩
                    (86400 * (dayOfMonth (floorDay nowE.naive) - 1)))).2
                  false st').store,
                ⟨DT.subSec ⟨floorDay nowE.naive, nowE.off⟩
                    (86400 * (dayOfMonth (floorDay nowE.naive) - 1)),
                  DT.subSec ⟨floorDay nowE.naive, nowE.off⟩
                    (86400 * (dayOfMonth (floorDay nowE.naive) - 1)),
                  ⟨floorDay nowE.naive + 86399, nowE.off⟩, true,
                  delPartEnergy stE0, true, evs ++ [.sleepEv 1]⟩ ::
                  (energyLoop tz parseTs apiE2 instIE fuelE
                    (energyStep tz (DT.subSec ⟨floorDay nowE.naive, nowE.off⟩
                      (86400 * (dayOfMonth (floorDay nowE.naive) - 1)))).1
                    (energyStep tz (DT.subSec ⟨floorDay nowE.naive, nowE.off⟩
                      (86400 * (dayOfMonth (floorDay nowE.naive) - 1)))).2
                    false st').trace⟩ :=
          energyLoop_fetch_ok tz parseTs apiE2 instIE fuelE
            (DT.subSec ⟨floorDay nowE.naive, nowE.off⟩
              (86400 * (dayOfMonth (floorDay nowE.naive) - 1)))
            ⟨floorDay nowE.naive + 86399, nowE.off⟩ true (delPartEnergy stE0) st' evs
            hcE (by rfl) hd
        show stGet (energySession tz parseTs apiE2 instIE (fuelE + 1) nowE stE0).store
          (.energy (monthFloor (eStartSeq tz
            (DT.subSec ⟨floorDay nowE.naive, nowE.off⟩
              (86400 * (dayOfMonth (floorDay nowE.naive) - 1))) jE).naive) true)
          = none
        rw [ho]
        dsimp only
        rw [energyLoop_partial_get]
        obtain ⟨a0, ha0, _⟩ := downloadEnergyMonth_ok_shape _ _ _ _ _ _ _ _ hd
        rw [ha0, stGet_stSet_ne]
        · have hdel := delPartEnergy_energy_true stE0
            (monthFloor (eStartSeq tz
              (DT.subSec ⟨floorDay nowE.naive, nowE.off⟩
                (86400 * (dayOfMonth (floorDay nowE.naive) - 1))) jE).naive)
          rw [stExists_eq_isSome_stGet] at hdel
          rcases hval : stGet (delPartEnergy stE0)
              (.energy (monthFloor (eStartSeq tz
                (DT.subSec ⟨floorDay nowE.naive, nowE.off⟩
                  (86400 * (dayOfMonth (floorDay nowE.naive) - 1))) jE).naive) true)
            with _ | v
          · rfl
          · rw [hval] at hdel
            simp at hdel
        · intro hh
          injection hh with h1 h2
          have hms : monthFloor (DT.subSec ⟨floorDay nowE.naive, nowE.off⟩
                (86400 * (dayOfMonth (floorDay nowE.naive) - 1))).naive
              = (DT.subSec ⟨floorDay nowE.naive, nowE.off⟩
                (86400 * (dayOfMonth (floorDay nowE.naive) - 1))).naive :=
            monthStart_sd0 nowE.naive
          obtain ⟨jj, rfl⟩ : ∃ jj, jE = jj + 1 := ⟨jE - 1, by omega⟩
          have hmsj := eStartSeq_monthStart tz
            (DT.subSec ⟨floorDay nowE.naive, nowE.off⟩
              (86400 * (dayOfMonth (floorDay nowE.naive) - 1))) hms (jj + 1)
          have hlt2 := eStartSeq_naive_lt tz
            (DT.subSec ⟨floorDay nowE.naive, nowE.off⟩
              (86400 * (dayOfMonth (floorDay nowE.naive) - 1))) jj
          rw [hmsj] at h1
          rw [hms] at h1
          omega

/-- C5 witness: a store holding a stale partial power artifact for
1970-01-02 and a store holding a stale partial energy artifact for December
1969; a power run from 1970-01-03 06:00 with installation instant 0 producing
that day at cursor index 1, and an energy run from the same "now" with an
installation instant in November 1969 producing that month at cursor index 1;
all eight hypotheses are discharged by evaluation. -/
theorem c5_delete_partials_witness :
    ((powerSession tzZero ptsZero apiPw 43200 5 ⟨194400, 0⟩
        [(SKey.power 86400 true, Artifact.power [])]).status = RunStatus.ok ∧
      1 ≤ 1 ∧
      1 < (powerSession tzZero ptsZero apiPw 43200 5 ⟨194400, 0⟩
        [(SKey.power 86400 true, Artifact.power [])]).trace.length ∧
      stExists [(SKey.power 86400 true, Artifact.power [])]
        (.power (floorDay (powerDateSeq tzZero ⟨floorDay (194400 : Int), 0⟩ 1).naive) true)
        = true ∧
      (energySession tzZero ptsZero apiEn (-2678401) 5 ⟨194400, 0⟩
        [(SKey.energy (-2678400) true, Artifact.energy [])]).status = RunStatus.ok ∧
      1 < (energySession tzZero ptsZero apiEn (-2678401) 5 ⟨194400, 0⟩
        [(SKey.energy (-2678400) true, Artifact.energy [])]).trace.length ∧
      stExists [(SKey.energy (-2678400) true, Artifact.energy [])]
        (.energy (monthFloor (eStartSeq tzZero
          (DT.subSec ⟨floorDay (194400 : Int), 0⟩
            (86400 * (dayOfMonth (floorDay (194400 : Int)) - 1))) 1).naive) true)
        = true) ∧
    ((∀ (st : Store) (x : Int),
      stExists (delPartPower st) (.power x true) = false ∧
      stExists (delPartEnergy st) (.energy x true) = false) ∧
    c5Concl tzZero ptsZero apiPw 43200 5 ⟨194400, 0⟩
      [(SKey.power 86400 true, Artifact.power [])] 1 ∧
    c5ConclE tzZero ptsZero apiEn (-2678401) 5 ⟨194400, 0⟩
      [(SKey.energy (-2678400) true, Artifact.energy [])] 1) := by
  exact ⟨⟨by decide, by decide, by decide, by decide, by decide, by decide, by decide⟩,
    c5_delete_partials tzZero ptsZero apiPw 43200 5 ⟨194400, 0⟩
      [(SKey.power 86400 true, Artifact.power [])] 1
      apiEn (-2678401) 5 ⟨194400, 0⟩
      [(SKey.energy (-2678400) true, Artifact.energy [])] 1
      (by decide) (by decide) (by decide) (by decide)
      (by decide) (by decide) (by decide) (by decide)⟩

/-- C6: writing an empty sample sequence raises the empty-series error before
any file is created (both kinds), and at the loop level an oracle that keeps
returning zero rows makes the iteration abort with that error, leaving the
store exactly as it was — an empty fetch result is never recorded as a
completed (or even empty) artifact. -/
theorem c6_empty_series (tz : Tz) (parseTs : String → Int) (api : ApiP) (instI : Int)
    (fuel : Nat) (d : DT) (st : Store) (day mo : Int) (fl : Bool)
    (hapi : ∀ r n, api r n = .ok [])
    (hc : ¬ d.instant ≤ instI) :
    writePowerCsv parseTs [] day fl st = .error .emptySeries ∧
    writeEnergyCsv parseTs [] mo fl st = .error .emptySeries ∧
    powerLoop tz parseTs api instI (fuel + 1) d true st
      = ⟨.raised .emptySeries, st,
          [⟨d, (powerReq tz d).startDt, (powerReq tz d).endDt, true, st, true,
            [.apiCall (powerReq tz d) 0, .sleepEv 5, .apiCall (powerReq tz d) 1]⟩]⟩ := by
  refine ⟨rfl, rfl, ?_⟩
  have hd : downloadPowerDay parseTs api (powerReq tz d) (floorDay d.naive) true st
      = (.error .emptySeries,
          [.apiCall (powerReq tz d) 0, .sleepEv 5, .apiCall (powerReq tz d) 1]) := by
    simp [downloadPowerDay, retry2, attemptPower, hapi, writePowerCsv]
  exact powerLoop_fetch_err tz parseTs api instI fuel d true st _ _ hc (by rfl) hd

/-- C6 witness: the always-empty oracle at a concrete date strictly after the
installation instant. -/
theorem c6_empty_series_witness :
    ((∀ r n, apiPwEmpty r n = Except.ok ([] : List PowerSample)) ∧
      ¬ DT.instant ⟨86400, 0⟩ ≤ (0 : Int)) ∧
    (writePowerCsv ptsZero [] 0 false [] = .error .emptySeries ∧
      writeEnergyCsv ptsZero [] 0 false [] = .error .emptySeries ∧
      powerLoop tzZero ptsZero apiPwEmpty 0 (3 + 1) ⟨86400, 0⟩ true []
        = ⟨.raised .emptySeries, [],
            [⟨⟨86400, 0⟩, (powerReq tzZero ⟨86400, 0⟩).startDt,
              (powerReq tzZero ⟨86400, 0⟩).endDt, true, [], true,
              [.apiCall (powerReq tzZero ⟨86400, 0⟩) 0, .sleepEv 5,
                .apiCall (powerReq tzZero ⟨86400, 0⟩) 1]⟩]⟩) := by
  exact ⟨⟨fun r n => rfl, by decide⟩,
    c6_empty_series tzZero ptsZero apiPwEmpty 0 3 ⟨86400, 0⟩ [] 0 0 false
      (fun r n => rfl) (by decide)⟩

/-- C7: a nonempty write persists exactly the transformed rows (both kinds);
the power transform normalizes the timestamp to the canonical local-naive
string form, appends `load_power` as the sum of the four power fields and
keeps every native field unchanged; the energy transform only normalizes the
timestamp and keeps the native field set unchanged. -/
theorem c7_transform (parseTs : String → Int) (samplesP : List PowerSample)
    (samplesE : List EnergySample) (day mo : Int) (fl : Bool) (st : Store)
    (hP : samplesP ≠ []) (hEn : samplesE ≠ []) :
    writePowerCsv parseTs samplesP day fl st
      = .ok (stSet st (.power day fl) (.power (samplesP.map (transformPower parseTs))),
          .power (samplesP.map (transformPower parseTs))) ∧
    writeEnergyCsv parseTs samplesE mo fl st
      = .ok (stSet st (.energy mo fl) (.energy (samplesE.map (transformEnergy parseTs))),
          .energy (samplesE.map (transformEnergy parseTs))) ∧
    (∀ s : PowerSample,
      (transformPower parseTs s).timestamp = fmtNaive (parseTs s.timestamp) ∧
      (transformPower parseTs s).load_power
        = s.solar_power + s.battery_power + s.grid_power + s.generator_power ∧
      (transformPower parseTs s).solar_power = s.solar_power ∧
      (transformPower parseTs s).battery_power = s.battery_power ∧
      (transformPower parseTs s).grid_power = s.grid_power ∧
      (transformPower parseTs s).generator_power = s.generator_power ∧
      (transformPower parseTs s).extra = s.extra) ∧
    (∀ s : EnergySample,
      (transformEnergy parseTs s).timestamp = fmtNaive (parseTs s.timestamp) ∧
      (transformEnergy parseTs s).fields = s.fields) := by
  refine ⟨by simp [writePowerCsv, hP], by simp [writeEnergyCsv, hEn],
    fun s => ⟨rfl, rfl, rfl, rfl, rfl, rfl, rfl⟩, fun s => ⟨rfl, rfl⟩⟩

/-- C7 witness: the spec's example — a power sample with solar 3, battery -1,
grid 0.5, generator 0 is written with `load_power = 2.5` and a normalized
timestamp. -/
theorem c7_transform_witness :
    (([(⟨"x", 3, -1, 1/2, 0, []⟩ : PowerSample)] : List PowerSample) ≠ [] ∧
      ([(⟨"t", []⟩ : EnergySample)] : List EnergySample) ≠ []) ∧
    ((transformPower ptsZero ⟨"x", 3, -1, 1/2, 0, []⟩).load_power = 5/2 ∧
      (transformPower ptsZero ⟨"x", 3, -1, 1/2, 0, []⟩).timestamp
        = "1970-01-01 00:00:00") := by
  have h := (c7_transform ptsZero [⟨"x", 3, -1, 1/2, 0, []⟩] [⟨"t", []⟩] 0 0 false []
    (by simp) (by simp)).2.2.1 ⟨"x", 3, -1, 1/2, 0, []⟩
  refine ⟨⟨by simp, by simp⟩, ?_, ?_⟩
  · rw [h.2.1]
    norm_num
  · rw [h.1]
    decide

theorem apiEvCount_append (a b : List Ev) :
    apiEvCount (a ++ b) = apiEvCount a + apiEvCount b := by
  simp [apiEvCount, List.filter_append]

theorem attemptPower_count (parseTs : String → Int) (api : ApiP) (r : Req) (day : Int)
    (fl : Bool) (st : Store) (n : Nat) :
    apiEvCount (attemptPower parseTs api r day fl st n).2 = 1 := by
  unfold attemptPower writePowerCsv
  rcases hres : api r n with c | samples
  · rfl
  · dsimp only
    by_cases hs : samples = []
    · rw [if_pos hs]
      rfl
    · rw [if_neg hs]
      rfl

/-- C9: the retry wrapper makes exactly two attempts with a fixed delay of 5
between them and propagates the second transient failure (both kinds); it
never makes more than two API calls for one period; a period whose two
attempts both fail transiently aborts the loop immediately with `fetchFailed`
carrying the second error, returning the store unchanged (both loops); and
every artifact written by an earlier iteration of any (possibly aborted)
power loop or energy run is still present, with its exact contents, in the
store the loop returns. -/
theorem c9_retry_policy (tz : Tz) (parseTs : String → Int) (api : ApiP) (apiE2 : ApiE)
    (r : Req) (day mo : Int) (fl : Bool) (st : Store) (instI : Int) (fuel : Nat)
    (d : DT) (stL : Store) (sdE edE : DT) (stLE : Store) (e0 e1 f0 f1 : Nat)
    (h0 : api r 0 = .error e0) (h1 : api r 1 = .error e1)
    (g0 : apiE2 r 0 = .error f0) (g1 : apiE2 r 1 = .error f1)
    (hc : ¬ d.instant ≤ instI)
    (hL0 : api (powerReq tz d) 0 = .error e0) (hL1 : api (powerReq tz d) 1 = .error e1)
    (hcE : ¬ edE.instant ≤ instI)
    (gL0 : apiE2 ⟨sdE, edE⟩ 0 = .error f0) (gL1 : apiE2 ⟨sdE, edE⟩ 1 = .error f1) :
    downloadPowerDay parseTs api r day fl st
      = (.error (.fetchFailed e1), [.apiCall r 0, .sleepEv 5, .apiCall r 1]) ∧
    downloadEnergyMonth parseTs apiE2 r mo fl st
      = (.error (.fetchFailed f1), [.apiCall r 0, .sleepEv 5, .apiCall r 1]) ∧
    (∀ (api' : ApiP) (r' : Req) (day' : Int) (fl' : Bool) (st' : Store),
      apiEvCount (downloadPowerDay parseTs api' r' day' fl' st').2 ≤ 2) ∧
    powerLoop tz parseTs api instI (fuel + 1) d true stL
      = ⟨.raised (.fetchFailed e1), stL,
          [⟨d, (powerReq tz d).startDt, (powerReq tz d).endDt, true, stL, true,
            [.apiCall (powerReq tz d) 0, .sleepEv 5, .apiCall (powerReq tz d) 1]⟩]⟩ ∧
    (∀ (api' : ApiP) (fuel' : Nat) (d' : DT) (latest' : Bool) (st' : Store),
      ∀ it ∈ (powerLoop tz parseTs api' instI fuel' d' latest' st').trace,
        ∀ k a, Ev.wrote k a ∈ it.events →
          stGet (powerLoop tz parseTs api' instI fuel' d' latest' st').store k = some a) ∧
    energyLoop tz parseTs apiE2 instI (fuel + 1) sdE edE true stLE
      = ⟨.raised (.fetchFailed f1), stLE,
          [⟨sdE, sdE, edE, true, stLE, true,
            [.apiCall ⟨sdE, edE⟩ 0, .sleepEv 5, .apiCall ⟨sdE, edE⟩ 1]⟩]⟩ ∧
    (∀ (apiE' : ApiE) (fuel' : Nat) (now' : DT) (st' : Store),
      ∀ it ∈ (energyRun tz parseTs apiE' instI fuel' now' st').trace,
        ∀ k a, Ev.wrote k a ∈ it.events →
          stGet (energyRun tz parseTs apiE' instI fuel' now' st').store k = some a) := by
  refine ⟨?_, ?_, ?_, ?_, ?_, ?_, ?_⟩
  · simp [downloadPowerDay, retry2, attemptPower, h0, h1]
  · simp [downloadEnergyMonth, retry2, attemptEnergy, g0, g1]
  · intro api' r' day' fl' st'
    unfold downloadPowerDay retry2
    rcases hA0 : attemptPower parseTs api' r' day' fl' st' 0 with ⟨res0, ev0⟩
    have hc0 := attemptPower_count parseTs api' r' day' fl' st' 0
    rw [hA0] at hc0
    rcases res0 with e | s0
    · rcases hA1 : attemptPower parseTs api' r' day' fl' st' 1 with ⟨res1, ev1⟩
      have hc1 := attemptPower_count parseTs api' r' day' fl' st' 1
      rw [hA1] at hc1
      show apiEvCount (ev0 ++ .sleepEv 5 :: ev1) ≤ 2
      rw [show Ev.sleepEv 5 :: ev1 = [Ev.sleepEv 5] ++ ev1 from rfl, apiEvCount_append,
        apiEvCount_append]
      simp only at hc0 hc1
      have : apiEvCount [Ev.sleepEv 5] = 0 := rfl
      omega
    · show apiEvCount ev0 ≤ 2
      simp only at hc0
      omega
  · have hd : downloadPowerDay parseTs api (powerReq tz d) (floorDay d.naive) true stL
        = (.error (.fetchFailed e1),
            [.apiCall (powerReq tz d) 0, .sleepEv 5, .apiCall (powerReq tz d) 1]) := by
      simp [downloadPowerDay, retry2, attemptPower, hL0, hL1]
    exact powerLoop_fetch_err tz parseTs api instI fuel d true stL _ _ hc (by rfl) hd
  · intro api' fuel' d' latest' st'
    exact powerLoop_writes_persist tz parseTs api' instI fuel' d' latest' st'
  · have hd : downloadEnergyMonth parseTs apiE2 ⟨sdE, edE⟩ (monthFloor sdE.naive) true stLE
        = (.error (.fetchFailed f1),
            [.apiCall ⟨sdE, edE⟩ 0, .sleepEv 5, .apiCall ⟨sdE, edE⟩ 1]) := by
      simp [downloadEnergyMonth, retry2, attemptEnergy, gL0, gL1]
    exact energyLoop_fetch_err tz parseTs apiE2 instI fuel sdE edE true stLE _ _ hcE
      (by rfl) hd
  · intro apiE' fuel' now' st'
    have hms : monthFloor (DT.subSec ⟨floorDay now'.naive, now'.off⟩
          (86400 * (dayOfMonth (floorDay now'.naive) - 1))).naive
        = (DT.subSec ⟨floorDay now'.naive, now'.off⟩
          (86400 * (dayOfMonth (floorDay now'.naive) - 1))).naive :=
      monthStart_sd0 now'.naive
    exact energyLoop_writes_persist tz parseTs apiE' instI fuel'
      (DT.subSec ⟨floorDay now'.naive, now'.off⟩
        (86400 * (dayOfMonth (floorDay now'.naive) - 1)))
      ⟨floorDay now'.naive + 86399, now'.off⟩ true st' hms

/-- C9 witness: concrete always-transiently-failing oracles of both kinds;
all ten hypotheses are discharged by direct evaluation. -/
theorem c9_retry_policy_witness :
    (apiPwFail ⟨⟨0, 0⟩, ⟨0, 0⟩⟩ 0 = .error 0 ∧ apiPwFail ⟨⟨0, 0⟩, ⟨0, 0⟩⟩ 1 = .error 1 ∧
      apiEnFail ⟨⟨0, 0⟩, ⟨0, 0⟩⟩ 0 = .error 0 ∧ apiEnFail ⟨⟨0, 0⟩, ⟨0, 0⟩⟩ 1 = .error 1 ∧
      ¬ DT.instant ⟨86400, 0⟩ ≤ (0 : Int) ∧
      apiPwFail (powerReq tzZero ⟨86400, 0⟩) 0 = .error 0 ∧
      apiPwFail (powerReq tzZero ⟨86400, 0⟩) 1 = .error 1 ∧
      ¬ DT.instant ⟨86399, 0⟩ ≤ (0 : Int) ∧
      apiEnFail ⟨⟨0, 0⟩, ⟨86399, 0⟩⟩ 0 = .error 0 ∧
      apiEnFail ⟨⟨0, 0⟩, ⟨86399, 0⟩⟩ 1 = .error 1) ∧
    (downloadPowerDay ptsZero apiPwFail ⟨⟨0, 0⟩, ⟨0, 0⟩⟩ 0 false []
      = (.error (.fetchFailed 1),
          [.apiCall ⟨⟨0, 0⟩, ⟨0, 0⟩⟩ 0, .sleepEv 5, .apiCall ⟨⟨0, 0⟩, ⟨0, 0⟩⟩ 1]) ∧
    powerLoop tzZero ptsZero apiPwFail 0 (3 + 1) ⟨86400, 0⟩ true []
      = ⟨.raised (.fetchFailed 1), [],
          [⟨⟨86400, 0⟩, (powerReq tzZero ⟨86400, 0⟩).startDt,
            (powerReq tzZero ⟨86400, 0⟩).endDt, true, [], true,
            [.apiCall (powerReq tzZero ⟨86400, 0⟩) 0, .sleepEv 5,
              .apiCall (powerReq tzZero ⟨86400, 0⟩) 1]⟩]⟩ ∧
    energyLoop tzZero ptsZero apiEnFail 0 (3 + 1) ⟨0, 0⟩ ⟨86399, 0⟩ true []
      = ⟨.raised (.fetchFailed 1), [],
          [⟨⟨0, 0⟩, ⟨0, 0⟩, ⟨86399, 0⟩, true, [], true,
            [.apiCall ⟨⟨0, 0⟩, ⟨86399, 0⟩⟩ 0, .sleepEv 5,
              .apiCall ⟨⟨0, 0⟩, ⟨86399, 0⟩⟩ 1]⟩]⟩) := by
  have h := c9_retry_policy tzZero ptsZero apiPwFail apiEnFail ⟨⟨0, 0⟩, ⟨0, 0⟩⟩ 0 0 false []
    0 3 ⟨86400, 0⟩ [] ⟨0, 0⟩ ⟨86399, 0⟩ [] 0 1 0 1 rfl rfl rfl rfl (by decide) rfl rfl
    (by decide) rfl rfl
  exact ⟨⟨rfl, rfl, rfl, rfl, by decide, rfl, rfl, by decide, rfl, rfl⟩, h.1, h.2.2.2.1,
    h.2.2.2.2.2.1⟩

/-- C10: the `@retry` decorator wraps the whole per-period body, including
the csv write, and retries on any exception, not only transport errors: a
period whose fetch returns an empty series on both attempts calls the remote
API a second time (after the delay) before the empty-series error propagates
(both kinds), and an empty first attempt followed by a nonempty second
attempt ends with a successful write — the write itself was retried. -/
theorem c10_retry_wraps_write (parseTs : String → Int) (api apiM : ApiP) (apiE2 : ApiE)
    (r : Req) (day mo : Int) (fl : Bool) (st : Store) (l : List PowerSample)
    (h0 : api r 0 = .ok []) (h1 : api r 1 = .ok [])
    (g0 : apiE2 r 0 = .ok []) (g1 : apiE2 r 1 = .ok [])
    (m0 : apiM r 0 = .ok []) (m1 : apiM r 1 = .ok l) (hl : l ≠ []) :
    downloadPowerDay parseTs api r day fl st
      = (.error .emptySeries, [.apiCall r 0, .sleepEv 5, .apiCall r 1]) ∧
    downloadEnergyMonth parseTs apiE2 r mo fl st
      = (.error .emptySeries, [.apiCall r 0, .sleepEv 5, .apiCall r 1]) ∧
    downloadPowerDay parseTs apiM r day fl st
      = (.ok (stSet st (.power day fl) (.power (l.map (transformPower parseTs)))),
          [.apiCall r 0, .sleepEv 5, .apiCall r 1,
            .wrote (.power day fl) (.power (l.map (transformPower parseTs)))]) := by
  refine ⟨?_, ?_, ?_⟩
  · simp [downloadPowerDay, retry2, attemptPower, writePowerCsv, h0, h1]
  · simp [downloadEnergyMonth, retry2, attemptEnergy, writeEnergyCsv, g0, g1]
  · simp [downloadPowerDay, retry2, attemptPower, writePowerCsv, m0, m1, hl]

/-- C10 witness: concrete empty-twice and empty-then-nonempty oracles. -/
theorem c10_retry_wraps_write_witness :
    (apiPwEmpty ⟨⟨0, 0⟩, ⟨0, 0⟩⟩ 0 = .ok [] ∧ apiPwEmpty ⟨⟨0, 0⟩, ⟨0, 0⟩⟩ 1 = .ok [] ∧
      apiEnEmpty ⟨⟨0, 0⟩, ⟨0, 0⟩⟩ 0 = .ok [] ∧ apiEnEmpty ⟨⟨0, 0⟩, ⟨0, 0⟩⟩ 1 = .ok [] ∧
      apiPwEmptyThen ⟨⟨0, 0⟩, ⟨0, 0⟩⟩ 0 = .ok [] ∧
      apiPwEmptyThen ⟨⟨0, 0⟩, ⟨0, 0⟩⟩ 1 = .ok [samplePw] ∧
      ([samplePw] : List PowerSample) ≠ []) ∧
    (downloadPowerDay ptsZero apiPwEmpty ⟨⟨0, 0⟩, ⟨0, 0⟩⟩ 0 false []
      = (.error .emptySeries,
          [.apiCall ⟨⟨0, 0⟩, ⟨0, 0⟩⟩ 0, .sleepEv 5, .apiCall ⟨⟨0, 0⟩, ⟨0, 0⟩⟩ 1]) ∧
    downloadPowerDay ptsZero apiPwEmptyThen ⟨⟨0, 0⟩, ⟨0, 0⟩⟩ 0 false []
      = (.ok (stSet [] (.power 0 false)
            (.power ([samplePw].map (transformPower ptsZero)))),
          [.apiCall ⟨⟨0, 0⟩, ⟨0, 0⟩⟩ 0, .sleepEv 5, .apiCall ⟨⟨0, 0⟩, ⟨0, 0⟩⟩ 1,
            .wrote (.power 0 false) (.power ([samplePw].map (transformPower ptsZero)))])) := by
  have h := c10_retry_wraps_write ptsZero apiPwEmpty apiPwEmptyThen apiEnEmpty
    ⟨⟨0, 0⟩, ⟨0, 0⟩⟩ 0 0 false [] [samplePw] rfl rfl rfl rfl rfl rfl (by simp)
  exact ⟨⟨rfl, rfl, rfl, rfl, rfl, rfl, by simp⟩, h.1, h.2.2⟩

/-- C8 counterexample: with a timezone whose offset changes exactly at the
naive reading 1970-02-01 00:00:00, a successful energy run from February 6
produces two consecutive periods, and the second (older) period's end
datetime carries the offset inherited from the newer month's localized start
(0) instead of the offset the timezone assigns to the end's own naive
reading (3600) — so the claim that every consecutive period's end instant is
re-localized against the rules of its own local date is false for the
energy loop. -/
theorem c8_counterexample :
    (energyRun tzShift ptsZero apiEn 0 5 ⟨3114000, 0⟩ []).status = RunStatus.ok ∧
    ((energyRun tzShift ptsZero apiEn 0 5 ⟨3114000, 0⟩ []).trace.map
      (fun it => it.endDt.off == tzShift it.endDt.naive)) = [true, false] := by
  exact ⟨by decide, by decide⟩

/-- C8 amended: in the power loop every produced period's request bounds are
re-localized from the period's own naive readings (so their attached offsets
are exactly what the timezone assigns to those readings), and consecutive
cursor dates step by exactly one naive day; in the energy loop the next
(older) period's start is re-localized against its own naive reading, but
its end is the naive instant one second before the newer period's start and
inherits the newer start's attached offset rather than being re-localized. -/
theorem c8_amended (tz : Tz) (parseTs : String → Int) (apiP : ApiP) (apiE : ApiE)
    (instI : Int) (fuel : Nat) (now : DT) (stP stE : Store) :
    (∀ it ∈ (powerRun tz parseTs apiP instI fuel now stP).trace,
      it.startDt = localize tz (floorDay it.date.naive) ∧
      it.endDt = localize tz (floorDay it.date.naive + 86399) ∧
      it.startDt.off = tz it.startDt.naive ∧ it.endDt.off = tz it.endDt.naive) ∧
    (∀ (j : Nat) (it it' : Iter),
      (powerRun tz parseTs apiP instI fuel now stP).trace.get? j = some it →
      (powerRun tz parseTs apiP instI fuel now stP).trace.get? (j + 1) = some it' →
      it'.date.naive = it.date.naive - 86400) ∧
    (∀ (j : Nat) (it it' : Iter),
      (energyRun tz parseTs apiE instI fuel now stE).trace.get? j = some it →
      (energyRun tz parseTs apiE instI fuel now stE).trace.get? (j + 1) = some it' →
      it'.startDt.off = tz it'.startDt.naive ∧
      it'.endDt.naive = it.startDt.naive - 1 ∧
      it'.endDt.off = it.startDt.off) := by
  refine ⟨?_, ?_, ?_⟩
  · intro it hit
    have h := powerLoop_iter_inv tz parseTs apiP instI fuel _ _ _ it hit
    refine ⟨h.2.1, h.2.2.1, ?_, ?_⟩
    · rw [h.2.1]
      rfl
    · rw [h.2.2.1]
      rfl
  · intro j it it' hj hj'
    have h1 := powerLoop_trace_get? tz parseTs apiP instI fuel _ _ _ j it hj
    have h1' := powerLoop_trace_get? tz parseTs apiP instI fuel _ _ _ (j + 1) it' hj'
    rw [h1.1, h1'.1, powerDateSeq_naive, powerDateSeq_naive]
    push_cast
    ring
  · intro j it it' hj hj'
    have h1 := energyLoop_trace_get? tz parseTs apiE instI fuel _ _ _ _ j it hj
    have h1' := energyLoop_trace_get? tz parseTs apiE instI fuel _ _ _ _ (j + 1) it' hj'
    have h2 := energyLoop_iter_inv tz parseTs apiE instI fuel _ _ _ _ it (List.get?_mem hj)
    have h2' := energyLoop_iter_inv tz parseTs apiE instI fuel _ _ _ _ it' (List.get?_mem hj')
    refine ⟨?_, ?_, ?_⟩
    · rw [h2'.2.1, h1'.1]
      rfl
    · rw [h1'.2.1, h2.2.1, h1.1]
      rfl
    · rw [h1'.2.1, h2.2.1, h1.1]
      rfl

end TeslaSolar
